import Mathlib

/-!
Verification of the iCalendar generator (`src/ical/scripts/generate_ics.py`)
against its natural-language specification.

Python strings are modelled as `List Char` (Python `str` is a sequence of
code points; Lean `Char` is a unicode scalar value).  Python functions that
can raise `ValueError` are modelled as `Except (List Char) _`, the payload
being the error message.  Byte lengths of UTF-8 encodings are computed with
`Char.utf8Size`, which agrees with `len(ch.encode("utf-8"))`.

`uuid.uuid4()` and `datetime.now()` are external sources of nondeterminism;
the UID and DTSTAMP strings they feed are passed to the embedding as
explicit parameters.
-/

/-- Shorthand: the character list of a string literal. -/
def L (s : String) : List Char := s.toList

/-- `len(s.encode("utf-8"))`: total UTF-8 byte length of a string. -/
def utf8Len (s : List Char) : Nat := (s.map Char.utf8Size).sum

/-- Python `sep.join(parts)`. -/
def joinSep (sep : List Char) : List (List Char) → List Char
  | [] => []
  | [l] => l
  | l :: l2 :: ls => l ++ sep ++ joinSep sep (l2 :: ls)

/-! ## LineFolder (`fold_line`, `fold_content`, source lines 31-55) -/

/-- The character loop of `fold_line` (source lines 36-48): `result` is the
list of finished chunks, `current` the chunk being grown.  The first chunk
may hold 75 encoded bytes, later chunks 74 (one byte is reserved for the
leading continuation space); a character whose bytes would overflow the
current chunk starts the next chunk. -/
def foldLoop : List Char → List (List Char) → List Char → List (List Char)
  | [], result, current => if current = [] then result else result ++ [current]
  | c :: rest, result, current =>
      let limit : Nat := if result = [] then 75 else 74
      if limit < utf8Len current + c.utf8Size then
        foldLoop rest (result ++ [current]) [c]
      else
        foldLoop rest result (current ++ [c])

/-- The chunk list `fold_line` computes for a long line. -/
def foldChunks (line : List Char) : List (List Char) := foldLoop line [] []

/-- `fold_line` (source lines 31-50): a line of at most 75 UTF-8 bytes is
returned unchanged, a longer one is split into chunks joined by
`"\r\n "`. -/
def fold_line (line : List Char) : List Char :=
  if utf8Len line ≤ 75 then line
  else joinSep (L "\r\n ") (foldChunks line)

/-- Python `content.split("\r\n")` (leftmost, non-overlapping). -/
def splitCRLF : List Char → List (List Char)
  | [] => [[]]
  | [c] => [[c]]
  | a :: b :: rest =>
      if a = '\r' ∧ b = '\n' then [] :: splitCRLF rest
      else
        match splitCRLF (b :: rest) with
        | [] => [[a]]
        | l :: ls => (a :: l) :: ls

/-- `fold_content` (source lines 53-55): split the document on CRLF, fold
each logical line, and rejoin with CRLF. -/
def fold_content (content : List Char) : List Char :=
  joinSep (L "\r\n") ((splitCRLF content).map fold_line)

/-- Unfolding, as the spec describes a compliant reader: remove every
occurrence of the three-character sequence CR LF SPACE (leftmost first). -/
def unfoldText : List Char → List Char
  | [] => []
  | [c] => [c]
  | [c, d] => [c, d]
  | c :: d :: e :: rest =>
      if c = '\r' ∧ d = '\n' ∧ e = ' ' then unfoldText rest
      else c :: unfoldText (d :: e :: rest)

/-- A logical line: no CR immediately followed by LF anywhere. -/
def noCRLF : List Char → Bool
  | a :: b :: rest => !(a == '\r' && b == '\n') && noCRLF (b :: rest)
  | _ => true

/-! ## TextEncoder (`escape_text`, source lines 23-28) -/

/-- Python `s.replace(p, r)` for a one-character pattern `p`. -/
def replace1 (p : Char) (r : List Char) : List Char → List Char
  | [] => []
  | c :: rest => (if c = p then r else [c]) ++ replace1 p r rest

/-- Python `s.replace(p ++ q, r)` for a two-character pattern: leftmost,
non-overlapping, replacements are not rescanned. -/
def replace2 (p q : Char) (r : List Char) : List Char → List Char
  | a :: b :: rest =>
      if a = p ∧ b = q then r ++ replace2 p q r rest
      else a :: replace2 p q r (b :: rest)
  | s => s

/-- `escape_text` (source lines 23-28): backslash, then semicolon, then
comma, then newline. -/
def escape_text (s : List Char) : List Char :=
  replace1 '\n' ['\\', 'n']
    (replace1 ',' ['\\', ',']
      (replace1 ';' ['\\', ';']
        (replace1 '\\' ['\\', '\\'] s)))

/-- The unescaping procedure named by the spec: the reverse substitutions
in reverse order. -/
def unescape_text (s : List Char) : List Char :=
  replace2 '\\' '\\' ['\\']
    (replace2 '\\' ';' [';']
      (replace2 '\\' ',' [',']
        (replace2 '\\' 'n' ['\n'] s)))

/-- No backslash immediately followed by the letter `n`. -/
def noBsn : List Char → Bool
  | a :: b :: rest => !(a == '\\' && b == 'n') && noBsn (b :: rest)
  | _ => true

/-! ## TemporalFormatter (source lines 58-63 and the inline date/duration
logic of `build_vevent`) -/

/-- `format_date` (source lines 58-59): `date_str.replace("-", "")`. -/
def format_date (s : List Char) : List Char := s.filter (· ≠ '-')

/-- `format_datetime` (source lines 62-63). -/
def format_datetime (d t : List Char) : List Char :=
  d.filter (· ≠ '-') ++ 'T' :: (t.filter (· ≠ ':')) ++ L "00"

/-- Decimal digits of an integer, as Python `str`/f-string renders it. -/
def intDigits (i : Int) : List Char :=
  if i < 0 then '-' :: Nat.toDigits 10 i.natAbs else Nat.toDigits 10 i.toNat

/-- The `PT[nH][mM]` token built at source lines 107-114 (and again, with a
leading minus sign prepended, at lines 152-159): Python
`divmod(minutes, 60)` is floor division and floor remainder. -/
def durationToken (m : Int) : List Char :=
  let hours := m.fdiv 60
  let mins := m.fmod 60
  L "PT" ++ (if hours ≠ 0 then intDigits hours ++ [ 'H' ] else [])
        ++ (if mins ≠ 0 then intDigits mins ++ [ 'M' ] else [])
        ++ (if hours = 0 ∧ mins = 0 then L "0M" else [])

/-- `c` is an ASCII decimal digit. -/
def isDigit (c : Char) : Bool := '0' ≤ c && c ≤ '9'

/-- `re.match(r"^\d{4}-\d{2}-\d{2}$", s)` (source line 72), read as a full
match of the ten-character date pattern. -/
def dateRe : List Char → Bool
  | [a, b, c, d, '-', e, f, '-', g, h] =>
      isDigit a && isDigit b && isDigit c && isDigit d &&
      isDigit e && isDigit f && isDigit g && isDigit h
  | _ => false

/-- `re.match(r"^\d{2}:\d{2}$", s)` (source line 76). -/
def timeRe : List Char → Bool
  | [a, b, ':', c, d] => isDigit a && isDigit b && isDigit c && isDigit d
  | _ => false

/-- Gregorian leap year, as `datetime` implements it. -/
def isLeap (y : Nat) : Bool := (y % 4 == 0 && y % 100 != 0) || y % 400 == 0

/-- Length of a month, as `datetime` implements it. -/
def daysInMonth (y m : Nat) : Nat :=
  if m = 2 then (if isLeap y then 29 else 28)
  else if m = 4 ∨ m = 6 ∨ m = 9 ∨ m = 11 then 30 else 31

/-- Numeric value of a digit character. -/
def digitVal (c : Char) : Nat := c.toNat - 48

/-- `datetime.strptime(s, "%Y-%m-%d")` (source line 94), modelled on its
documented behaviour: the ten-character shape is parsed and the result must
be a real proleptic-Gregorian calendar day with `1 <= year <= 9999`
(`datetime.MINYEAR`/`MAXYEAR`); otherwise `ValueError`. -/
def parseDate10 (s : List Char) : Option (Nat × Nat × Nat) :=
  match s with
  | [a, b, c, d, '-', e, f, '-', g, h] =>
      if isDigit a && isDigit b && isDigit c && isDigit d &&
         isDigit e && isDigit f && isDigit g && isDigit h then
        let y := 1000 * digitVal a + 100 * digitVal b + 10 * digitVal c + digitVal d
        let m := 10 * digitVal e + digitVal f
        let dd := 10 * digitVal g + digitVal h
        if 1 ≤ y ∧ 1 ≤ m ∧ m ≤ 12 ∧ 1 ≤ dd ∧ dd ≤ daysInMonth y m then
          some (y, m, dd)
        else none
      else none
  | _ => none

/-- `dt + timedelta(days=1)` on a (year, month, day) triple. -/
def nextDayYMD : Nat × Nat × Nat → Nat × Nat × Nat
  | (y, m, d) =>
      if d < daysInMonth y m then (y, m, d + 1)
      else if m < 12 then (y, m + 1, 1) else (y + 1, 1, 1)

/-- `strftime("%Y%m%d")`: zero-padded year, month and day tokens.  (For
years below 1000 the padding of `%Y` is platform dependent in CPython;
every date in play has a four-digit year.) -/
def fmtYMD : Nat × Nat × Nat → List Char
  | (y, m, d) =>
      let ds := fun (w n : Nat) =>
        List.replicate (w - (Nat.toDigits 10 n).length) '0' ++ Nat.toDigits 10 n
      ds 4 y ++ ds 2 m ++ ds 2 d

/-! ## Data model -/

/-- One event record as supplied by the caller (a JSON object; `none` marks
an absent key). -/
structure Event where
  date : Option (List Char) := none
  summary : Option (List Char) := none
  time : Option (List Char) := none
  timezone : Option (List Char) := none
  reminder_minutes : Option Int := none
  duration_minutes : Option Int := none
  description : Option (List Char) := none
  location : Option (List Char) := none
  url : Option (List Char) := none
  categories : Option (List (List Char)) := none
  status : Option (List Char) := none
  transp : Option (List Char) := none
  rrule : Option (List Char) := none
deriving DecidableEq

/-- The `defaults` dict built at source lines 177-181. -/
structure Defaults where
  timezone : Option (List Char)
  reminder_minutes : Int
  duration_minutes : Int
deriving DecidableEq

/-- The root input object of `generate_ics`. -/
structure InputData where
  events : Option (List Event) := none
  timezone : Option (List Char) := none
  reminder_minutes : Option Int := none
  duration_minutes : Option Int := none

/-- Python truthiness of an optional string: present and non-empty. -/
def truthyS : Option (List Char) → Bool
  | some (_ :: _) => true
  | _ => false

/-- Python truthiness of an optional list of strings. -/
def truthyL : Option (List (List Char)) → Bool
  | some (_ :: _) => true
  | _ => false

/-- `event.get("timezone", defaults.get("timezone"))` (source line 79). -/
def resolveTz (e : Event) (d : Defaults) : Option (List Char) :=
  match e.timezone with
  | some t => some t
  | none => d.timezone

/-- `status in ("TENTATIVE", "CONFIRMED", "CANCELLED")` (source line 137). -/
def statusEnum (s : List Char) : Bool :=
  s == L "TENTATIVE" || s == L "CONFIRMED" || s == L "CANCELLED"

/-- `transp in ("OPAQUE", "TRANSPARENT")` (source line 143). -/
def transpEnum (s : List Char) : Bool :=
  s == L "OPAQUE" || s == L "TRANSPARENT"

/-! ## Error messages -/

/-- A rendering of a field of the record, standing in for its part in
Python's `repr` of the event dict inside f-string interpolation. -/
def reprField (o : Option (List Char)) : List Char :=
  match o with
  | none => []
  | some s => '\'' :: s ++ ['\'']

/-- Rendering of an optional integer field. -/
def reprIntField (o : Option Int) : List Char :=
  match o with
  | none => []
  | some n => if n < 0 then '-' :: Nat.toDigits 10 n.natAbs else Nat.toDigits 10 n.toNat

/-- Stands in for the Python `repr` of the event dict interpolated into the
missing-fields message (the claims only inspect the fixed prefix before
it). -/
def reprEvent (e : Event) : List Char :=
  reprField e.date ++ reprField e.summary ++ reprField e.time ++
  reprField e.timezone ++ reprIntField e.reminder_minutes ++
  reprIntField e.duration_minutes ++ reprField e.description ++
  reprField e.location ++ reprField e.url ++
  (match e.categories with
   | none => []
   | some cs => joinSep [','] cs) ++
  reprField e.status ++ reprField e.transp ++ reprField e.rrule

/-- Source line 70. -/
def msgMissing (e : Event) : List Char :=
  L "Event missing required fields (date, summary): " ++ reprEvent e

/-- Source line 73. -/
def msgBadDate (date : List Char) : List Char :=
  L "Invalid date format '" ++ date ++ L "', expected YYYY-MM-DD"

/-- Source line 77. -/
def msgBadTime (time : List Char) : List Char :=
  L "Invalid time format '" ++ time ++ L "', expected HH:MM"

/-- Source lines 100-103. -/
def msgNoTz (summary : List Char) : List Char :=
  L "Event '" ++ summary ++
    L "' has a time but no timezone. Set 'timezone' at root level or per event."

/-- Source line 138. -/
def msgBadStatus (s : List Char) : List Char :=
  L "Invalid status '" ++ s ++ L "', expected TENTATIVE/CONFIRMED/CANCELLED"

/-- Source line 144. -/
def msgBadTransp (s : List Char) : List Char :=
  L "Invalid transp '" ++ s ++ L "', expected OPAQUE/TRANSPARENT"

/-- The `ValueError` raised by `strptime` on a ten-character date string
that is not a real calendar day (message text modelled). -/
def msgStrptime : List Char := L "strptime: invalid date value"

/-- The `OverflowError` raised by `dt + timedelta(days=1)` past
`datetime.max` (message text modelled). -/
def msgOverflow : List Char := L "date value out of range"

/-- Source line 175. -/
def msgEmpty : List Char := L "JSON must contain a non-empty 'events' array"

/-! ## VEventBuilder (`build_vevent`, source lines 66-169)

`uid` and `dtstamp` are the strings produced at source lines 83-84 from the
clock and the random source; they enter the embedding as parameters. -/

/-- `build_vevent` (source lines 66-169), checks and appends in source
order.  Returns the `lines` list built by the function body (the final
`"\r\n".join` of line 169 is applied by the caller model). -/
def build_vevent (uid dtstamp : List Char) (event : Event) (defaults : Defaults) :
    Except (List Char) (List (List Char)) :=
  if ¬ (truthyS event.date ∧ truthyS event.summary) then .error (msgMissing event) else
  let date := event.date.getD []
  let summary := event.summary.getD []
  if ¬ dateRe date then .error (msgBadDate date) else
  if truthyS event.time ∧ ¬ timeRe (event.time.getD []) then
    .error (msgBadTime (event.time.getD [])) else
  let tz := resolveTz event defaults
  let reminder := event.reminder_minutes.getD defaults.reminder_minutes
  let duration := event.duration_minutes.getD defaults.duration_minutes
  let head3 := [L "BEGIN:VEVENT", L "UID:" ++ uid, L "DTSTAMP:" ++ dtstamp]
  let dtres : Except (List Char) (List (List Char)) :=
    match event.time with
    | none =>
        match parseDate10 date with
        | none => .error msgStrptime
        | some ymd =>
            if ymd = (9999, 12, 31) then .error msgOverflow
            else .ok [L "DTSTART;VALUE=DATE:" ++ format_date date,
                      L "DTEND;VALUE=DATE:" ++ fmtYMD (nextDayYMD ymd)]
    | some t =>
        if ¬ truthyS tz then .error (msgNoTz summary)
        else .ok ([L "DTSTART;TZID=" ++ tz.getD [] ++ ':' :: format_datetime date t]
                  ++ (if duration ≠ 0 then [L "DURATION:" ++ durationToken duration] else []))
  match dtres with
  | .error m => .error m
  | .ok dtLines =>
    let lines := head3 ++ dtLines ++ [L "SUMMARY:" ++ escape_text summary]
      ++ (if truthyS event.description then
            [L "DESCRIPTION:" ++ escape_text (event.description.getD [])] else [])
      ++ (if truthyS event.location then
            [L "LOCATION:" ++ escape_text (event.location.getD [])] else [])
      ++ (if truthyS event.url then [L "URL:" ++ event.url.getD []] else [])
      ++ (if truthyL event.categories then
            [L "CATEGORIES:" ++ joinSep [','] (event.categories.getD [])] else [])
    if truthyS event.status ∧ ¬ statusEnum (event.status.getD []) then
      .error (msgBadStatus (event.status.getD [])) else
    let lines := lines ++ (if truthyS event.status then
      [L "STATUS:" ++ event.status.getD []] else [])
    if truthyS event.transp ∧ ¬ transpEnum (event.transp.getD []) then
      .error (msgBadTransp (event.transp.getD [])) else
    let lines := lines
      ++ (if truthyS event.transp then [L "TRANSP:" ++ event.transp.getD []] else [])
      ++ (if truthyS event.rrule then [L "RRULE:" ++ event.rrule.getD []] else [])
      ++ (if reminder ≠ 0 ∧ 0 < reminder then
            [L "BEGIN:VALARM", L "TRIGGER:-" ++ durationToken reminder,
             L "ACTION:DISPLAY", L "DESCRIPTION:Reminder", L "END:VALARM"]
          else [])
      ++ [L "END:VEVENT"]
    .ok lines

/-! ## CalendarDocumentBuilder (`generate_ics`, source lines 172-197) -/

/-- The five fixed envelope header lines (source lines 183-189). -/
def headerLines : List (List Char) :=
  [L "BEGIN:VCALENDAR", L "VERSION:2.0", L "PRODID:-//Claude//EN",
   L "CALSCALE:GREGORIAN", L "METHOD:PUBLISH"]

/-- The event loop of source lines 191-192: build each record in input
order, aborting on the first failure.  `ug i` / `dg i` are the UID and
DTSTAMP strings for the `i`-th record. -/
def buildAll (ug dg : Nat → List Char) (d : Defaults) :
    Nat → List Event → Except (List Char) (List (List (List Char)))
  | _, [] => .ok []
  | i, e :: rest =>
      match build_vevent (ug i) (dg i) e d with
      | .error m => .error m
      | .ok b =>
          match buildAll ug dg d (i + 1) rest with
          | .error m => .error m
          | .ok bs => .ok (b :: bs)

/-- The defaults extracted at source lines 177-181. -/
def mkDefaults (data : InputData) : Defaults :=
  ⟨data.timezone, data.reminder_minutes.getD 0, data.duration_minutes.getD 60⟩

/-- `generate_ics` (source lines 172-197): reject an absent or empty event
list, build every record in order, wrap in the envelope, join with CRLF and
fold the whole document. -/
def generate_ics (ug dg : Nat → List Char) (data : InputData) :
    Except (List Char) (List Char) :=
  match data.events with
  | none => .error msgEmpty
  | some [] => .error msgEmpty
  | some es =>
      let defaults := mkDefaults data
      match buildAll ug dg defaults 0 es with
      | .error m => .error m
      | .ok blocks =>
          .ok (fold_content (joinSep (L "\r\n")
            (headerLines ++ blocks.map (joinSep (L "\r\n")) ++ [L "END:VCALENDAR"])))

/-! ## The validator's rules, as one predicate

The spec's EventRecordValidator rules (spec section 4.4), read off the
checks `build_vevent` performs before formatting: required fields truthy,
date and time patterns, a resolvable timezone when a time is present,
status and transp drawn from their enumerations when truthy. -/

/-- The record satisfies every rule of the validator. -/
def validEvent (e : Event) (d : Defaults) : Bool :=
  truthyS e.date && truthyS e.summary && dateRe (e.date.getD []) &&
  (!(truthyS e.time) || timeRe (e.time.getD [])) &&
  (e.time.isNone || truthyS (resolveTz e d)) &&
  (!(truthyS e.status) || statusEnum (e.status.getD [])) &&
  (!(truthyS e.transp) || transpEnum (e.transp.getD []))

/-- For an all-day record: the date is a real calendar day that `strptime`
accepts and whose successor does not overflow `datetime.max`. -/
def strpdateOk (s : List Char) : Bool :=
  match parseDate10 s with
  | some ymd => decide (ymd ≠ (9999, 12, 31))
  | none => false

/-! ## The assembled property-line list of one event

`eventBlock` states, as one concatenation, the fixed emission order the
spec prescribes for a record that passes validation: UID, DTSTAMP, the
start/end-or-duration tokens, SUMMARY, DESCRIPTION, LOCATION, URL,
CATEGORIES, STATUS, TRANSP, RRULE, then the optional alarm block.  The
refinement theorems show `build_vevent` returns exactly this list. -/

/-- The ordered property lines of one built event. -/
def eventBlock (uid dtstamp : List Char) (e : Event) (d : Defaults) :
    List (List Char) :=
  let date := e.date.getD []
  let tz := resolveTz e d
  let reminder := e.reminder_minutes.getD d.reminder_minutes
  let duration := e.duration_minutes.getD d.duration_minutes
  [L "BEGIN:VEVENT", L "UID:" ++ uid, L "DTSTAMP:" ++ dtstamp]
  ++ (match e.time with
      | none =>
          [L "DTSTART;VALUE=DATE:" ++ format_date date,
           L "DTEND;VALUE=DATE:" ++
             fmtYMD (nextDayYMD ((parseDate10 date).getD (0, 0, 0)))]
      | some t =>
          [L "DTSTART;TZID=" ++ tz.getD [] ++ ':' :: format_datetime date t]
          ++ (if duration ≠ 0 then [L "DURATION:" ++ durationToken duration] else []))
  ++ [L "SUMMARY:" ++ escape_text (e.summary.getD [])]
  ++ (if truthyS e.description then
        [L "DESCRIPTION:" ++ escape_text (e.description.getD [])] else [])
  ++ (if truthyS e.location then
        [L "LOCATION:" ++ escape_text (e.location.getD [])] else [])
  ++ (if truthyS e.url then [L "URL:" ++ e.url.getD []] else [])
  ++ (if truthyL e.categories then
        [L "CATEGORIES:" ++ joinSep [','] (e.categories.getD [])] else [])
  ++ (if truthyS e.status then [L "STATUS:" ++ e.status.getD []] else [])
  ++ (if truthyS e.transp then [L "TRANSP:" ++ e.transp.getD []] else [])
  ++ (if truthyS e.rrule then [L "RRULE:" ++ e.rrule.getD []] else [])
  ++ (if reminder ≠ 0 ∧ 0 < reminder then
        [L "BEGIN:VALARM", L "TRIGGER:-" ++ durationToken reminder,
         L "ACTION:DISPLAY", L "DESCRIPTION:Reminder", L "END:VALARM"]
      else [])
  ++ [L "END:VEVENT"]

/-- The blocks the event loop produces from index `i` on. -/
def eventBlocksFrom (ug dg : Nat → List Char) (d : Defaults) :
    Nat → List Event → List (List (List Char))
  | _, [] => []
  | i, e :: rest =>
      eventBlock (ug i) (dg i) e d :: eventBlocksFrom ug dg d (i + 1) rest

/-- The bounds `fold_line` guarantees for the chunks of a folded line: all
chunks non-empty, the first at most 75 UTF-8 bytes, every later one at most
74 (its physical line carries one leading space). -/
def chunksBounded : List (List Char) → Prop
  | [] => True
  | c :: rest => c ≠ [] ∧ utf8Len c ≤ 75 ∧ ∀ x ∈ rest, x ≠ [] ∧ utf8Len x ≤ 74

/-- The successful payload of a build, for stating counterexamples. -/
def okLines (r : Except (List Char) (List (List Char))) : List (List Char) :=
  match r with
  | .ok b => b
  | .error _ => []

/-- The successful payload of a document generation. -/
def okText (r : Except (List Char) (List Char)) : List Char :=
  match r with
  | .ok t => t
  | .error _ => []

/-- `(y, m, d)` is a real proleptic-Gregorian calendar day. -/
def validYMD : Nat × Nat × Nat → Bool
  | (y, m, d) => 1 ≤ y && 1 ≤ m && m ≤ 12 && 1 ≤ d && d ≤ daysInMonth y m

/-! ## Token views of escaping

`escape_text` maps each input character independently: these token maps
record its output per character, and the intermediate shapes after each of
the four unescaping substitutions. -/

/-- The escape token of one character. -/
def escChar (c : Char) : List Char :=
  if c = '\\' then ['\\', '\\'] else if c = ';' then ['\\', ';']
  else if c = ',' then ['\\', ','] else if c = '\n' then ['\\', 'n'] else [c]

/-- Token shape after undoing the newline substitution. -/
def esc1 (c : Char) : List Char :=
  if c = '\\' then ['\\', '\\'] else if c = ';' then ['\\', ';']
  else if c = ',' then ['\\', ','] else if c = '\n' then ['\n'] else [c]

/-- Token shape after also undoing the comma substitution. -/
def esc2 (c : Char) : List Char :=
  if c = '\\' then ['\\', '\\'] else if c = ';' then ['\\', ';']
  else if c = ',' then [','] else if c = '\n' then ['\n'] else [c]

/-- Token shape after also undoing the semicolon substitution. -/
def esc3 (c : Char) : List Char :=
  if c = '\\' then ['\\', '\\'] else if c = ';' then [';']
  else if c = ',' then [','] else if c = '\n' then ['\n'] else [c]

/-- The logical line list of a whole document: the envelope header, the
property lines of every built event in input order, the footer.  The
structure theorem for `generate_ics` shows the generated text is exactly
the fold of these lines. -/
def docLines (ug dg : Nat → List Char) (d : Defaults) (es : List Event) :
    List (List Char) :=
  headerLines ++ (eventBlocksFrom ug dg d 0 es).flatten ++ [L "END:VCALENDAR"]

/-! ## Lemmas on folding -/

theorem utf8Len_append (a b : List Char) :
    utf8Len (a ++ b) = utf8Len a + utf8Len b := by
  simp [utf8Len]

theorem utf8Len_nil : utf8Len [] = 0 := rfl

theorem utf8Len_singleton (c : Char) : utf8Len [c] = c.utf8Size := by
  simp [utf8Len]

theorem foldLoop_flatten (rest : List Char) :
    ∀ result current,
      (foldLoop rest result current).flatten = result.flatten ++ (current ++ rest) := by
  induction rest with
  | nil =>
      intro result current
      by_cases h : current = [] <;> simp [foldLoop, h]
  | cons c cs ih =>
      intro result current
      rw [foldLoop]
      split <;> split <;> rw [ih] <;> simp

theorem foldLoop_bounded (rest : List Char) :
    ∀ result current,
      chunksBounded result →
      utf8Len current ≤ (if result = [] then 75 else 74) →
      (current = [] → result = []) →
      chunksBounded (foldLoop rest result current) := by
  induction rest with
  | nil =>
      intro result current hres hcur hne
      rw [foldLoop]
      split
      · exact hres
      · rename_i h
        match result, hres with
        | [], _ =>
            exact ⟨h, by simpa using hcur, by simp⟩
        | r :: rs, ⟨h1, h2, h3⟩ =>
            refine ⟨h1, h2, ?_⟩
            intro x hx
            rcases List.mem_append.1 hx with hx | hx
            · exact h3 x hx
            · rcases List.mem_singleton.1 hx with rfl
              exact ⟨h, by simpa using hcur⟩
  | cons c cs ih =>
      intro result current hres hcur hne
      rw [foldLoop]
      have h4 := Char.utf8Size_le_four c
      by_cases hover : (if result = [] then (75 : Nat) else 74) < utf8Len current + c.utf8Size
      · rw [if_pos hover]
        have hcne : current ≠ [] := by
          intro hc
          subst hc
          rw [utf8Len_nil, Nat.zero_add] at hover
          split at hover <;> omega
        refine ih (result ++ [current]) [c] ?_ ?_ (by intro h; simp at h)
        · match result, hres with
          | [], _ =>
              have hle : utf8Len current ≤ 75 := by simpa using hcur
              exact ⟨hcne, hle, by simp⟩
          | r :: rs, ⟨h1, h2, h3⟩ =>
              refine ⟨h1, h2, ?_⟩
              intro x hx
              rcases List.mem_append.1 hx with hx | hx
              · exact h3 x hx
              · rcases List.mem_singleton.1 hx with rfl
                refine ⟨hcne, ?_⟩
                simpa using hcur
        · rw [if_neg (by simp), utf8Len_singleton]
          omega
      · rw [if_neg hover]
        push_neg at hover
        refine ih result (current ++ [c]) hres ?_ (by intro h; simp at h)
        rw [utf8Len_append, utf8Len_singleton]
        exact hover

/-! ## Lemmas on unfolding -/

theorem unfoldText_cons₂ (a b : Char) (xs : List Char) (h : ¬(a = '\r' ∧ b = '\n')) :
    unfoldText (a :: b :: xs) = a :: unfoldText (b :: xs) := by
  cases xs with
  | nil => simp [unfoldText]
  | cons e rest =>
      rw [unfoldText]
      rw [if_neg]
      intro hc
      exact h ⟨hc.1, hc.2.1⟩

theorem noCRLF_cons₂ (a b : Char) (xs : List Char) (h : noCRLF (a :: b :: xs) = true) :
    ¬(a = '\r' ∧ b = '\n') ∧ noCRLF (b :: xs) = true := by
  rw [noCRLF] at h
  obtain ⟨h1, h2⟩ := (Bool.and_eq_true _ _).mp h
  refine ⟨?_, h2⟩
  intro hc
  rcases hc with ⟨x, y⟩
  subst x; subst y
  simp at h1

theorem unfoldText_id (l : List Char) (h : noCRLF l = true) : unfoldText l = l := by
  induction l with
  | nil => rfl
  | cons a rest ih =>
      cases rest with
      | nil => rfl
      | cons b rs =>
          obtain ⟨h1, h2⟩ := noCRLF_cons₂ a b rs h
          rw [unfoldText_cons₂ a b rs h1, ih h2]

theorem unfoldText_chunk_sep (chunk : List Char) :
    noCRLF chunk = true → ∀ t : List Char,
      unfoldText (chunk ++ '\r' :: '\n' :: ' ' :: t) = chunk ++ unfoldText t := by
  induction chunk with
  | nil =>
      intro _ t
      simp [unfoldText]
  | cons a rest ih =>
      intro h t
      cases rest with
      | nil =>
          simp only [List.cons_append, List.nil_append]
          rw [unfoldText]
          rw [if_neg (by intro hc; exact absurd hc.2.1 (by decide))]
          rw [unfoldText, if_pos ⟨rfl, rfl, rfl⟩]
      | cons b rs =>
          obtain ⟨h1, h2⟩ := noCRLF_cons₂ a b rs h
          simp only [List.cons_append]
          rw [unfoldText_cons₂ a b _ h1]
          have := ih h2 t
          simp only [List.cons_append] at this
          rw [this]

theorem unfoldText_joinSep (chunks : List (List Char))
    (h : ∀ c ∈ chunks, noCRLF c = true) :
    unfoldText (joinSep (L "\r\n ") chunks) = chunks.flatten := by
  induction chunks with
  | nil => simp [joinSep, unfoldText]
  | cons c cs ih =>
      cases cs with
      | nil =>
          simp only [joinSep, List.flatten, List.append_nil]
          exact unfoldText_id c (h c (by simp))
      | cons c2 cs2 =>
          rw [joinSep, List.append_assoc]
          show unfoldText (c ++ ('\r' :: '\n' :: ' ' :: joinSep (L "\r\n ") (c2 :: cs2))) = _
          rw [unfoldText_chunk_sep c (h c (by simp)) _]
          rw [ih (fun x hx => h x (by simp [hx]))]
          simp

theorem noCRLF_of_append (a : List Char) :
    ∀ b : List Char, noCRLF (a ++ b) = true → noCRLF a = true ∧ noCRLF b = true := by
  induction a with
  | nil => exact fun b h => ⟨rfl, h⟩
  | cons x xs ih =>
      intro b h
      cases xs with
      | nil =>
          refine ⟨rfl, ?_⟩
          cases b with
          | nil => rfl
          | cons y ys =>
              simp only [List.cons_append, List.nil_append] at h
              exact (noCRLF_cons₂ x y ys h).2
      | cons x2 xs2 =>
          simp only [List.cons_append] at h
          rw [noCRLF] at h
          obtain ⟨hp, hrest⟩ := (Bool.and_eq_true _ _).mp h
          have hrest' : noCRLF ((x2 :: xs2) ++ b) = true := by
            simpa only [List.cons_append] using hrest
          obtain ⟨ha, hb⟩ := ih b hrest'
          refine ⟨?_, hb⟩
          rw [noCRLF]
          exact (Bool.and_eq_true _ _).mpr ⟨hp, ha⟩

theorem noCRLF_of_infix {m l : List Char} (hm : m <:+: l) (h : noCRLF l = true) :
    noCRLF m = true := by
  obtain ⟨s, t, rfl⟩ := hm
  rw [List.append_assoc] at h
  have h1 := (noCRLF_of_append s (m ++ t) h).2
  exact (noCRLF_of_append m t h1).1

/-- **C1.** For every logical line, `fold_line` returns the line unchanged
when its UTF-8 encoding is at most 75 bytes; otherwise it returns the
sequence of chunks joined by CRLF-plus-one-space, where the first chunk
holds at most 75 encoded bytes, every later chunk at most 74, and the
chunks concatenate back to the line character by character, so no chunk
boundary falls inside the UTF-8 encoding of a single character (a character
whose bytes would overflow the current chunk starts the next chunk
whole). -/
theorem claim_C1_fold_line (line : List Char) :
    (utf8Len line ≤ 75 → fold_line line = line) ∧
    (75 < utf8Len line →
      fold_line line = joinSep (L "\r\n ") (foldChunks line) ∧
      (foldChunks line).flatten = line ∧
      chunksBounded (foldChunks line)) := by
  constructor
  · intro h
    simp [fold_line, h]
  · intro h
    refine ⟨?_, ?_, ?_⟩
    · rw [fold_line, if_neg (by omega)]
    · simpa [foldChunks] using foldLoop_flatten line [] []
    · exact foldLoop_bounded line [] [] trivial (by simp [utf8Len_nil]) (fun _ => rfl)

/-- Witness for C1 at two concrete lines: a short line is kept verbatim, an
80-byte line is folded into bounded chunks that concatenate back. -/
theorem claim_C1_fold_line_witness :
    (utf8Len (L "SUMMARY:ok") ≤ 75 ∧ fold_line (L "SUMMARY:ok") = L "SUMMARY:ok") ∧
    (75 < utf8Len (List.replicate 80 'a') ∧
      (fold_line (List.replicate 80 'a') =
         joinSep (L "\r\n ") (foldChunks (List.replicate 80 'a')) ∧
       (foldChunks (List.replicate 80 'a')).flatten = List.replicate 80 'a' ∧
       chunksBounded (foldChunks (List.replicate 80 'a')))) :=
  ⟨⟨by decide, (claim_C1_fold_line (L "SUMMARY:ok")).1 (by decide)⟩,
   ⟨by decide, (claim_C1_fold_line (List.replicate 80 'a')).2 (by decide)⟩⟩

/-- **C2.** For every logical line (no CR immediately followed by LF),
removing every occurrence of CR LF SPACE from the output of `fold_line`
reproduces the line exactly: unfolding is a left inverse of folding. -/
theorem claim_C2_fold_roundtrip (line : List Char) (h : noCRLF line = true) :
    unfoldText (fold_line line) = line := by
  by_cases hle : utf8Len line ≤ 75
  · rw [fold_line, if_pos hle]
    exact unfoldText_id line h
  · rw [fold_line, if_neg hle]
    have hflat : (foldChunks line).flatten = line := by
      simpa [foldChunks] using foldLoop_flatten line [] []
    have hc : ∀ c ∈ foldChunks line, noCRLF c = true := by
      intro c hcm
      have hinf : c <:+: line := by
        rw [← hflat]
        exact List.infix_of_mem_flatten hcm
      exact noCRLF_of_infix hinf h
    rw [unfoldText_joinSep _ hc, hflat]

/-- Witness for C2 at a concrete multi-byte line: forty copies of a
two-byte character (80 encoded bytes) survive the folding round trip. -/
theorem claim_C2_fold_roundtrip_witness :
    noCRLF (List.replicate 40 'é') = true ∧
    unfoldText (fold_line (List.replicate 40 'é')) = List.replicate 40 'é' :=
  ⟨by decide, claim_C2_fold_roundtrip _ (by decide)⟩

/-! ## Lemmas on escaping -/

theorem replace1_append (p : Char) (r : List Char) (a : List Char) :
    ∀ b : List Char, replace1 p r (a ++ b) = replace1 p r a ++ replace1 p r b := by
  induction a with
  | nil => intro b; rfl
  | cons c cs ih =>
      intro b
      simp [replace1, ih, List.append_assoc]

theorem escape_text_append (a b : List Char) :
    escape_text (a ++ b) = escape_text a ++ escape_text b := by
  simp [escape_text, replace1_append]

theorem escape_single (c : Char) : escape_text [c] = escChar c := by
  by_cases h1 : c = '\\'
  · subst h1; rfl
  · by_cases h2 : c = ';'
    · subst h2; rfl
    · by_cases h3 : c = ','
      · subst h3; rfl
      · by_cases h4 : c = '\n'
        · subst h4; rfl
        · simp [escape_text, replace1, escChar, h1, h2, h3, h4]

theorem escape_flatten (s : List Char) :
    escape_text s = (s.map escChar).flatten := by
  induction s with
  | nil => rfl
  | cons c cs ih =>
      have hc : c :: cs = [c] ++ cs := rfl
      rw [hc, escape_text_append, escape_single, ih]
      simp

theorem replace2_cons_ne (p q : Char) (r : List Char) (x : Char) (S : List Char)
    (h : x ≠ p ∨ S.head? ≠ some q) :
    replace2 p q r (x :: S) = x :: replace2 p q r S := by
  cases S with
  | nil => rfl
  | cons b t =>
      have hne : ¬(x = p ∧ b = q) := by
        rcases h with h | h
        · exact fun hc => h hc.1
        · exact fun hc => h (by simp [hc.2])
      rw [replace2, if_neg hne]

theorem noBsn_cons (c : Char) (cs : List Char) (h : noBsn (c :: cs) = true) :
    noBsn cs = true ∧ (c = '\\' → cs.head? ≠ some 'n') := by
  cases cs with
  | nil => exact ⟨rfl, by simp⟩
  | cons b t =>
      rw [noBsn] at h
      obtain ⟨h1, h2⟩ := (Bool.and_eq_true _ _).mp h
      refine ⟨h2, ?_⟩
      intro hc hb
      subst hc
      have hb' : b = 'n' := by simpa using hb
      subst hb'
      simp at h1

theorem flattenEscChar_head (cs : List Char) (h : cs.head? ≠ some 'n') :
    ((cs.map escChar).flatten).head? ≠ some 'n' := by
  cases cs with
  | nil => simp
  | cons d ds =>
      have hd : d ≠ 'n' := by simpa using h
      simp only [List.map_cons, List.flatten_cons]
      by_cases h1 : d = '\\'
      · subst h1; simp [escChar]
      · by_cases h2 : d = ';'
        · subst h2; simp [escChar]
        · by_cases h3 : d = ','
          · subst h3; simp [escChar]
          · by_cases h4 : d = '\n'
            · subst h4; simp [escChar]
            · simp [escChar, h1, h2, h3, h4, hd]

theorem unescape_stage1 (text : List Char) :
    noBsn text = true →
    replace2 '\\' 'n' ['\n'] ((text.map escChar).flatten) = (text.map esc1).flatten := by
  induction text with
  | nil => intro _; rfl
  | cons c cs ih =>
      intro h
      obtain ⟨hrest, hbsn⟩ := noBsn_cons c cs h
      simp only [List.map_cons, List.flatten_cons]
      by_cases h1 : c = '\\'
      · subst h1
        have e1 : escChar '\\' = ['\\', '\\'] := rfl
        have e2 : esc1 '\\' = ['\\', '\\'] := rfl
        rw [e1, e2]
        simp only [List.cons_append, List.nil_append]
        rw [replace2, if_neg (by rintro ⟨-, hq⟩; exact absurd hq (by decide))]
        rw [replace2_cons_ne _ _ _ _ _ (Or.inr (flattenEscChar_head cs (hbsn rfl)))]
        rw [ih hrest]
      · by_cases h2 : c = ';'
        · subst h2
          have e1 : escChar ';' = ['\\', ';'] := rfl
          have e2 : esc1 ';' = ['\\', ';'] := rfl
          rw [e1, e2]
          simp only [List.cons_append, List.nil_append]
          rw [replace2, if_neg (by rintro ⟨-, hq⟩; exact absurd hq (by decide))]
          rw [replace2_cons_ne _ _ _ _ _ (Or.inl (by decide))]
          rw [ih hrest]
        · by_cases h3 : c = ','
          · subst h3
            have e1 : escChar ',' = ['\\', ','] := rfl
            have e2 : esc1 ',' = ['\\', ','] := rfl
            rw [e1, e2]
            simp only [List.cons_append, List.nil_append]
            rw [replace2, if_neg (by rintro ⟨-, hq⟩; exact absurd hq (by decide))]
            rw [replace2_cons_ne _ _ _ _ _ (Or.inl (by decide))]
            rw [ih hrest]
          · by_cases h4 : c = '\n'
            · subst h4
              have e1 : escChar '\n' = ['\\', 'n'] := rfl
              have e2 : esc1 '\n' = ['\n'] := rfl
              rw [e1, e2]
              simp only [List.cons_append, List.nil_append]
              rw [replace2, if_pos ⟨rfl, rfl⟩]
              rw [ih hrest]
              rfl
            · have e1 : escChar c = [c] := by simp [escChar, h1, h2, h3, h4]
              have e2 : esc1 c = [c] := by simp [esc1, h1, h2, h3, h4]
              rw [e1, e2]
              simp only [List.cons_append, List.nil_append]
              rw [replace2_cons_ne _ _ _ _ _ (Or.inl h1)]
              rw [ih hrest]

theorem flattenEsc1_head (cs : List Char) :
    ((cs.map esc1).flatten).head? ≠ some ',' := by
  cases cs with
  | nil => simp
  | cons d ds =>
      simp only [List.map_cons, List.flatten_cons]
      by_cases h1 : d = '\\'
      · subst h1; simp [esc1]
      · by_cases h2 : d = ';'
        · subst h2; simp [esc1]
        · by_cases h3 : d = ','
          · subst h3; simp [esc1]
          · by_cases h4 : d = '\n'
            · subst h4; simp [esc1]
            · simp [esc1, h1, h2, h3, h4]

theorem flattenEsc2_head (cs : List Char) :
    ((cs.map esc2).flatten).head? ≠ some ';' := by
  cases cs with
  | nil => simp
  | cons d ds =>
      simp only [List.map_cons, List.flatten_cons]
      by_cases h1 : d = '\\'
      · subst h1; simp [esc2]
      · by_cases h2 : d = ';'
        · subst h2; simp [esc2]
        · by_cases h3 : d = ','
          · subst h3; simp [esc2]
          · by_cases h4 : d = '\n'
            · subst h4; simp [esc2]
            · simp [esc2, h1, h2, h3, h4]

theorem unescape_stage2 (text : List Char) :
    replace2 '\\' ',' [','] ((text.map esc1).flatten) = (text.map esc2).flatten := by
  induction text with
  | nil => rfl
  | cons c cs ih =>
      simp only [List.map_cons, List.flatten_cons]
      by_cases h1 : c = '\\'
      · subst h1
        have e1 : esc1 '\\' = ['\\', '\\'] := rfl
        have e2 : esc2 '\\' = ['\\', '\\'] := rfl
        rw [e1, e2]
        simp only [List.cons_append, List.nil_append]
        rw [replace2, if_neg (by rintro ⟨-, hq⟩; exact absurd hq (by decide))]
        rw [replace2_cons_ne _ _ _ _ _ (Or.inr (flattenEsc1_head cs))]
        rw [ih]
      · by_cases h2 : c = ';'
        · subst h2
          have e1 : esc1 ';' = ['\\', ';'] := rfl
          have e2 : esc2 ';' = ['\\', ';'] := rfl
          rw [e1, e2]
          simp only [List.cons_append, List.nil_append]
          rw [replace2, if_neg (by rintro ⟨-, hq⟩; exact absurd hq (by decide))]
          rw [replace2_cons_ne _ _ _ _ _ (Or.inl (by decide))]
          rw [ih]
        · by_cases h3 : c = ','
          · subst h3
            have e1 : esc1 ',' = ['\\', ','] := rfl
            have e2 : esc2 ',' = [','] := rfl
            rw [e1, e2]
            simp only [List.cons_append, List.nil_append]
            rw [replace2, if_pos ⟨rfl, rfl⟩]
            rw [ih]
            rfl
          · by_cases h4 : c = '\n'
            · subst h4
              have e1 : esc1 '\n' = ['\n'] := rfl
              have e2 : esc2 '\n' = ['\n'] := rfl
              rw [e1, e2]
              simp only [List.cons_append, List.nil_append]
              rw [replace2_cons_ne _ _ _ _ _ (Or.inl (by decide))]
              rw [ih]
            · have e1 : esc1 c = [c] := by simp [esc1, h1, h2, h3, h4]
              have e2 : esc2 c = [c] := by simp [esc2, h1, h2, h3, h4]
              rw [e1, e2]
              simp only [List.cons_append, List.nil_append]
              rw [replace2_cons_ne _ _ _ _ _ (Or.inl h1)]
              rw [ih]

theorem unescape_stage3 (text : List Char) :
    replace2 '\\' ';' [';'] ((text.map esc2).flatten) = (text.map esc3).flatten := by
  induction text with
  | nil => rfl
  | cons c cs ih =>
      simp only [List.map_cons, List.flatten_cons]
      by_cases h1 : c = '\\'
      · subst h1
        have e1 : esc2 '\\' = ['\\', '\\'] := rfl
        have e2 : esc3 '\\' = ['\\', '\\'] := rfl
        rw [e1, e2]
        simp only [List.cons_append, List.nil_append]
        rw [replace2, if_neg (by rintro ⟨-, hq⟩; exact absurd hq (by decide))]
        rw [replace2_cons_ne _ _ _ _ _ (Or.inr (flattenEsc2_head cs))]
        rw [ih]
      · by_cases h2 : c = ';'
        · subst h2
          have e1 : esc2 ';' = ['\\', ';'] := rfl
          have e2 : esc3 ';' = [';'] := rfl
          rw [e1, e2]
          simp only [List.cons_append, List.nil_append]
          rw [replace2, if_pos ⟨rfl, rfl⟩]
          rw [ih]
          rfl
        · by_cases h3 : c = ','
          · subst h3
            have e1 : esc2 ',' = [','] := rfl
            have e2 : esc3 ',' = [','] := rfl
            rw [e1, e2]
            simp only [List.cons_append, List.nil_append]
            rw [replace2_cons_ne _ _ _ _ _ (Or.inl (by decide))]
            rw [ih]
          · by_cases h4 : c = '\n'
            · subst h4
              have e1 : esc2 '\n' = ['\n'] := rfl
              have e2 : esc3 '\n' = ['\n'] := rfl
              rw [e1, e2]
              simp only [List.cons_append, List.nil_append]
              rw [replace2_cons_ne _ _ _ _ _ (Or.inl (by decide))]
              rw [ih]
            · have e1 : esc2 c = [c] := by simp [esc2, h1, h2, h3, h4]
              have e2 : esc3 c = [c] := by simp [esc3, h1, h2, h3, h4]
              rw [e1, e2]
              simp only [List.cons_append, List.nil_append]
              rw [replace2_cons_ne _ _ _ _ _ (Or.inl h1)]
              rw [ih]

theorem unescape_stage4 (text : List Char) :
    replace2 '\\' '\\' ['\\'] ((text.map esc3).flatten) = text := by
  induction text with
  | nil => rfl
  | cons c cs ih =>
      simp only [List.map_cons, List.flatten_cons]
      by_cases h1 : c = '\\'
      · subst h1
        have e1 : esc3 '\\' = ['\\', '\\'] := rfl
        rw [e1]
        simp only [List.cons_append, List.nil_append]
        rw [replace2, if_pos ⟨rfl, rfl⟩]
        rw [ih]
        rfl
      · by_cases h2 : c = ';'
        · subst h2
          have e1 : esc3 ';' = [';'] := rfl
          rw [e1]
          simp only [List.cons_append, List.nil_append]
          rw [replace2_cons_ne _ _ _ _ _ (Or.inl (by decide))]
          rw [ih]
        · by_cases h3 : c = ','
          · subst h3
            have e1 : esc3 ',' = [','] := rfl
            rw [e1]
            simp only [List.cons_append, List.nil_append]
            rw [replace2_cons_ne _ _ _ _ _ (Or.inl (by decide))]
            rw [ih]
          · by_cases h4 : c = '\n'
            · subst h4
              have e1 : esc3 '\n' = ['\n'] := rfl
              rw [e1]
              simp only [List.cons_append, List.nil_append]
              rw [replace2_cons_ne _ _ _ _ _ (Or.inl (by decide))]
              rw [ih]
            · have e1 : esc3 c = [c] := by simp [esc3, h1, h2, h3, h4]
              rw [e1]
              simp only [List.cons_append, List.nil_append]
              rw [replace2_cons_ne _ _ _ _ _ (Or.inl h1)]
              rw [ih]

/-- **C4, counterexample.** The claim fails as stated: for the two-character
text backslash-`n`, escaping doubles the backslash, and the first reverse
substitution (literal backslash-`n` to newline) then matches across the
doubled backslash, so the round trip returns backslash-newline instead. -/
theorem claim_C4_counterexample :
    unescape_text (escape_text (L "\\n")) ≠ L "\\n" ∧
    escape_text (L "\\n") = L "\\\\n" ∧
    unescape_text (L "\\\\n") = ['\\', '\n'] := by decide

/-- **C4, amended.** Applying the reverse substitutions in reverse order to
`escape_text text` reproduces `text` exactly, for every text in which no
backslash is immediately followed by the letter `n` (in particular for any
combination of bare backslashes, semicolons, commas and newlines). -/
theorem claim_C4_escape_roundtrip (text : List Char) (h : noBsn text = true) :
    unescape_text (escape_text text) = text := by
  rw [escape_flatten]
  unfold unescape_text
  rw [unescape_stage1 text h, unescape_stage2 text, unescape_stage3 text,
      unescape_stage4 text]

/-- Witness for amended C4 at a text combining all four escaped
characters. -/
theorem claim_C4_escape_roundtrip_witness :
    noBsn (L "a\\b;c,d\ne") = true ∧
    unescape_text (escape_text (L "a\\b;c,d\ne")) = L "a\\b;c,d\ne" :=
  ⟨by decide, claim_C4_escape_roundtrip _ (by decide)⟩

/-! ## Refinement: a validated record builds exactly its property-line list -/

theorem build_vevent_ok (uid dtstamp : List Char) (e : Event) (d : Defaults)
    (hv : validEvent e d = true)
    (hall : e.time = none → strpdateOk (e.date.getD []) = true) :
    build_vevent uid dtstamp e d = .ok (eventBlock uid dtstamp e d) := by
  simp only [validEvent, Bool.and_eq_true] at hv
  obtain ⟨⟨⟨⟨⟨⟨h1, h2⟩, h3⟩, h4⟩, h5⟩, h6⟩, h7⟩ := hv
  have hstP : truthyS e.status = false ∨ statusEnum (e.status.getD []) = true := by
    rcases (Bool.or_eq_true _ _).mp h6 with h | h
    · exact Or.inl (by simpa using h)
    · exact Or.inr h
  have htrP : truthyS e.transp = false ∨ transpEnum (e.transp.getD []) = true := by
    rcases (Bool.or_eq_true _ _).mp h7 with h | h
    · exact Or.inl (by simpa using h)
    · exact Or.inr h
  have htmP : truthyS e.time = false ∨ timeRe (e.time.getD []) = true := by
    rcases (Bool.or_eq_true _ _).mp h4 with h | h
    · exact Or.inl (by simpa using h)
    · exact Or.inr h
  rcases he : e.time with _ | t
  · have hok := hall he
    rw [strpdateOk] at hok
    rcases hp : parseDate10 (e.date.getD []) with _ | ymd
    · rw [hp] at hok; cases hok
    · rw [hp] at hok
      have hne : ymd ≠ (9999, 12, 31) := of_decide_eq_true hok
      rcases hstP with hst | hst <;> rcases htrP with htr | htr <;>
        simp [build_vevent, eventBlock, he, hp, h1, h2, h3, hne, hst, htr,
          List.append_assoc] <;>
        exact fun hx => absurd hx (by decide)
  · rw [he] at h5 htmP
    have htz : truthyS (resolveTz e d) = true := by simpa using h5
    have htm2 : truthyS (some t) = true → timeRe t = true := by
      rcases htmP with htm | htm
      · intro hx; rw [htm] at hx; cases hx
      · intro _; simpa using htm
    rcases hstP with hst | hst <;> rcases htrP with htr | htr <;>
      simp [build_vevent, eventBlock, he, h1, h2, h3, htz, hst, htr,
        List.append_assoc] <;>
      exact htm2

/-- **C3, counterexample.** The record with date `2024-02-30` (and a
summary) satisfies every rule the validator checks — the date matches the
four-two-two digit pattern — yet building it raises: `strptime` rejects the
thirtieth of February, so the formatting steps are not total on validated
input. -/
theorem claim_C3_counterexample :
    validEvent { date := some (L "2024-02-30"), summary := some (L "Launch") }
      ⟨none, 0, 60⟩ = true ∧
    build_vevent (L "u0") (L "t0")
      { date := some (L "2024-02-30"), summary := some (L "Launch") }
      ⟨none, 0, 60⟩ = .error msgStrptime := by
  constructor
  · decide
  · rfl

/-- **C3, amended.** For every event record that satisfies all of the
validator's rules, and whose date — when the record is all-day — denotes an
existing calendar day other than the maximum representable date 9999-12-31,
building the event raises no error. -/
theorem claim_C3_build_total (uid dtstamp : List Char) (e : Event) (d : Defaults)
    (hv : validEvent e d = true)
    (hall : e.time = none → strpdateOk (e.date.getD []) = true) :
    ∃ b, build_vevent uid dtstamp e d = .ok b :=
  ⟨_, build_vevent_ok uid dtstamp e d hv hall⟩

/-- Witness for amended C3 at a concrete validated all-day record. -/
theorem claim_C3_build_total_witness :
    validEvent { date := some (L "2024-03-10"), summary := some (L "Launch") }
      ⟨none, 0, 60⟩ = true ∧
    (∃ b, build_vevent (L "u0") (L "t0")
      { date := some (L "2024-03-10"), summary := some (L "Launch") }
      ⟨none, 0, 60⟩ = .ok b) :=
  ⟨by decide, claim_C3_build_total _ _ _ _ (by decide) (by decide)⟩

/-! ## Calendar rollover -/

theorem one_le_daysInMonth (y m : Nat) : 1 ≤ daysInMonth y m := by
  unfold daysInMonth
  split_ifs <;> omega

theorem nextDayYMD_valid (ymd : Nat × Nat × Nat) (h : validYMD ymd = true) :
    validYMD (nextDayYMD ymd) = true := by
  obtain ⟨y, m, d⟩ := ymd
  simp only [validYMD, Bool.and_eq_true, decide_eq_true_eq] at h
  obtain ⟨⟨⟨⟨h1, h2⟩, h3⟩, h4⟩, h5⟩ := h
  rw [nextDayYMD]
  split_ifs with hd hm
  · simp only [validYMD, Bool.and_eq_true, decide_eq_true_eq]
    omega
  · have h6 := one_le_daysInMonth y (m + 1)
    simp only [validYMD, Bool.and_eq_true, decide_eq_true_eq]
    omega
  · have h7 : daysInMonth (y + 1) 1 = 31 := by simp [daysInMonth]
    simp only [validYMD, Bool.and_eq_true, decide_eq_true_eq]
    omega

/-- **C6, counterexample.** The claim fails at the all-day record dated
`9999-12-31`: the date is a perfectly valid calendar day and passes
validation, but `dt + timedelta(days=1)` overflows `datetime.max`, so the
build raises instead of emitting the start and end tokens. -/
theorem claim_C6_counterexample :
    validEvent { date := some (L "9999-12-31"), summary := some (L "x") }
      ⟨none, 0, 60⟩ = true ∧
    parseDate10 (L "9999-12-31") = some (9999, 12, 31) ∧
    validYMD (9999, 12, 31) = true ∧
    build_vevent (L "u0") (L "t0")
      { date := some (L "9999-12-31"), summary := some (L "x") }
      ⟨none, 0, 60⟩ = .error msgOverflow :=
  ⟨by decide, by decide, by decide, rfl⟩

/-- **C6, amended.** For every all-day event record with a valid calendar
date other than 9999-12-31 (whose successor overflows the date type), the
built event contains a start date token equal to the date with separators
stripped and an end date token equal to the next calendar day; the
successor function rolls over month and year boundaries onto real calendar
days, including leap and non-leap February — in particular 2024-02-29
yields end token 20240301. -/
theorem claim_C6_allday_tokens (uid dtstamp : List Char) (e : Event) (d : Defaults)
    (hv : validEvent e d = true) (ht : e.time = none)
    (ymd : Nat × Nat × Nat) (hp : parseDate10 (e.date.getD []) = some ymd)
    (hmax : ymd ≠ (9999, 12, 31)) :
    ((L "DTSTART;VALUE=DATE:" ++ format_date (e.date.getD [])) ∈
        okLines (build_vevent uid dtstamp e d) ∧
     (L "DTEND;VALUE=DATE:" ++ fmtYMD (nextDayYMD ymd)) ∈
        okLines (build_vevent uid dtstamp e d)) ∧
    (validYMD ymd = true → validYMD (nextDayYMD ymd) = true) ∧
    (nextDayYMD (2024, 2, 29) = (2024, 3, 1) ∧
     fmtYMD (nextDayYMD (2024, 2, 29)) = L "20240301" ∧
     nextDayYMD (2023, 2, 28) = (2023, 3, 1) ∧
     nextDayYMD (2024, 12, 31) = (2025, 1, 1) ∧
     nextDayYMD (2024, 6, 30) = (2024, 7, 1) ∧
     nextDayYMD (1900, 2, 28) = (1900, 3, 1) ∧
     nextDayYMD (2000, 2, 28) = (2000, 2, 29)) ∧
    okLines (build_vevent (L "u0") (L "t0")
        { date := some (L "2024-02-29"), summary := some (L "Launch") }
        ⟨none, 0, 60⟩) =
      [L "BEGIN:VEVENT", L "UID:u0", L "DTSTAMP:t0",
       L "DTSTART;VALUE=DATE:20240229", L "DTEND;VALUE=DATE:20240301",
       L "SUMMARY:Launch", L "END:VEVENT"] := by
  have hall : e.time = none → strpdateOk (e.date.getD []) = true := by
    intro _
    rw [strpdateOk, hp]
    exact decide_eq_true hmax
  have hb := build_vevent_ok uid dtstamp e d hv hall
  refine ⟨?_, nextDayYMD_valid ymd, by decide, rfl⟩
  rw [hb]
  constructor <;> simp [okLines, eventBlock, ht, hp]

/-- Witness for amended C6 at the leap-day record of the spec. -/
theorem claim_C6_allday_tokens_witness :
    ((L "DTSTART;VALUE=DATE:" ++ format_date (L "2024-02-29")) ∈
        okLines (build_vevent (L "u0") (L "t0")
          { date := some (L "2024-02-29"), summary := some (L "Launch") }
          ⟨none, 0, 60⟩) ∧
     (L "DTEND;VALUE=DATE:" ++ fmtYMD (nextDayYMD (2024, 2, 29))) ∈
        okLines (build_vevent (L "u0") (L "t0")
          { date := some (L "2024-02-29"), summary := some (L "Launch") }
          ⟨none, 0, 60⟩)) ∧
    (validYMD (2024, 2, 29) = true → validYMD (nextDayYMD (2024, 2, 29)) = true) ∧
    (nextDayYMD (2024, 2, 29) = (2024, 3, 1) ∧
     fmtYMD (nextDayYMD (2024, 2, 29)) = L "20240301" ∧
     nextDayYMD (2023, 2, 28) = (2023, 3, 1) ∧
     nextDayYMD (2024, 12, 31) = (2025, 1, 1) ∧
     nextDayYMD (2024, 6, 30) = (2024, 7, 1) ∧
     nextDayYMD (1900, 2, 28) = (1900, 3, 1) ∧
     nextDayYMD (2000, 2, 28) = (2000, 2, 29)) ∧
    okLines (build_vevent (L "u0") (L "t0")
        { date := some (L "2024-02-29"), summary := some (L "Launch") }
        ⟨none, 0, 60⟩) =
      [L "BEGIN:VEVENT", L "UID:u0", L "DTSTAMP:t0",
       L "DTSTART;VALUE=DATE:20240229", L "DTEND;VALUE=DATE:20240301",
       L "SUMMARY:Launch", L "END:VEVENT"] :=
  claim_C6_allday_tokens (L "u0") (L "t0")
    { date := some (L "2024-02-29"), summary := some (L "Launch") }
    ⟨none, 0, 60⟩ (by decide) rfl (2024, 2, 29) (by decide) (by decide)

/-! ## Line-prefix machinery -/

theorem take_eq_of_pref {p l : List Char} (h : p <+: l) (k : Nat)
    (hk : k ≤ p.length) : p.take k = l.take k := by
  obtain ⟨t, rfl⟩ := h
  rw [List.take_append_of_le_length hk]

theorem not_prefix_of_take2 {p l : List Char} (hlen : 2 ≤ p.length)
    (h2 : p.take 2 ≠ l.take 2) : ¬ (p <+: l) :=
  fun h => h2 (take_eq_of_pref h 2 hlen)

theorem not_prefix_of_bool {p l : List Char} (h : p.isPrefixOf l = false) :
    ¬ (p <+: l) := by
  intro hp
  rw [← List.isPrefixOf_iff_prefix] at hp
  simp [h] at hp

theorem forall_mem_ite_nil {c : Prop} [Decidable c] {xs : List (List Char)}
    {p : List Char → Prop} :
    (∀ l ∈ (if c then xs else []), p l) ↔ (c → ∀ l ∈ xs, p l) := by
  by_cases h : c <;> simp [h]

theorem eventBlock_no_duration (uid dtstamp : List Char) (e : Event) (d : Defaults)
    (hdur : e.duration_minutes.getD d.duration_minutes = 0) :
    ∀ l ∈ eventBlock uid dtstamp e d, ¬ (L "DURATION:" <+: l) := by
  rcases he : e.time with _ | t
  all_goals
    simp only [eventBlock, he, List.append_assoc, List.forall_mem_append,
      forall_mem_ite_nil, List.forall_mem_cons, List.forall_mem_singleton]
  all_goals repeat' apply And.intro
  all_goals intros
  all_goals repeat' apply And.intro
  all_goals
    first
      | exact not_prefix_of_bool rfl
      | (exfalso; omega)
      | (intro y hy; exact absurd hy (List.not_mem_nil y))
      | exact absurd (by assumption) (List.not_mem_nil _)

theorem eventBlock_no_alarm (uid dtstamp : List Char) (e : Event) (d : Defaults)
    (hrem : e.reminder_minutes.getD d.reminder_minutes = 0) :
    ∀ l ∈ eventBlock uid dtstamp e d,
      ¬ (L "TRIGGER:" <+: l) ∧ l ≠ L "BEGIN:VALARM" := by
  rcases he : e.time with _ | t
  all_goals
    simp only [eventBlock, he, List.append_assoc, List.forall_mem_append,
      forall_mem_ite_nil, List.forall_mem_cons, List.forall_mem_singleton]
  all_goals repeat' apply And.intro
  all_goals intros
  all_goals repeat' apply And.intro
  all_goals
    first
      | exact not_prefix_of_bool rfl
      | exact ne_of_beq_false rfl
      | (exfalso; omega)
      | (intro y hy; exact absurd hy (List.not_mem_nil y))
      | exact absurd (by assumption) (List.not_mem_nil _)

theorem eventBlock_no_status (uid dtstamp : List Char) (e : Event) (d : Defaults)
    (hst : truthyS e.status = false) :
    ∀ l ∈ eventBlock uid dtstamp e d, ¬ (L "STATUS:" <+: l) := by
  rcases he : e.time with _ | t
  all_goals
    simp only [eventBlock, he, List.append_assoc, List.forall_mem_append,
      forall_mem_ite_nil, List.forall_mem_cons, List.forall_mem_singleton]
  all_goals repeat' apply And.intro
  all_goals intros
  all_goals repeat' apply And.intro
  all_goals
    first
      | exact not_prefix_of_bool rfl
      | (exfalso; omega)
      | (intro y hy; exact absurd hy (List.not_mem_nil y))
      | exact absurd (by assumption) (List.not_mem_nil _)
      | (exfalso; simp_all)

theorem eventBlock_count_begin (uid dtstamp : List Char) (e : Event) (d : Defaults) :
    (eventBlock uid dtstamp e d).count (L "BEGIN:VEVENT") = 1 := by
  have hU : ∀ x : List Char, ((L "UID:" ++ x) == L "BEGIN:VEVENT") = false :=
    fun x => rfl
  have hDt : ∀ x : List Char, ((L "DTSTAMP:" ++ x) == L "BEGIN:VEVENT") = false :=
    fun x => rfl
  have hDs : ∀ x : List Char, ((L "DTSTART;VALUE=DATE:" ++ x) == L "BEGIN:VEVENT") = false :=
    fun x => rfl
  have hDe : ∀ x : List Char, ((L "DTEND;VALUE=DATE:" ++ x) == L "BEGIN:VEVENT") = false :=
    fun x => rfl
  have hTz : ∀ x : List Char, ((L "DTSTART;TZID=" ++ x) == L "BEGIN:VEVENT") = false :=
    fun x => rfl
  have hDur : ∀ x : List Char, ((L "DURATION:" ++ x) == L "BEGIN:VEVENT") = false :=
    fun x => rfl
  have hSum : ∀ x : List Char, ((L "SUMMARY:" ++ x) == L "BEGIN:VEVENT") = false :=
    fun x => rfl
  have hDesc : ∀ x : List Char, ((L "DESCRIPTION:" ++ x) == L "BEGIN:VEVENT") = false :=
    fun x => rfl
  have hLoc : ∀ x : List Char, ((L "LOCATION:" ++ x) == L "BEGIN:VEVENT") = false :=
    fun x => rfl
  have hUrl : ∀ x : List Char, ((L "URL:" ++ x) == L "BEGIN:VEVENT") = false :=
    fun x => rfl
  have hCat : ∀ x : List Char, ((L "CATEGORIES:" ++ x) == L "BEGIN:VEVENT") = false :=
    fun x => rfl
  have hSt : ∀ x : List Char, ((L "STATUS:" ++ x) == L "BEGIN:VEVENT") = false :=
    fun x => rfl
  have hTr : ∀ x : List Char, ((L "TRANSP:" ++ x) == L "BEGIN:VEVENT") = false :=
    fun x => rfl
  have hTg : ∀ x : List Char, ((L "TRIGGER:-" ++ x) == L "BEGIN:VEVENT") = false :=
    fun x => rfl
  have hRr : ∀ x : List Char, ((L "RRULE:" ++ x) == L "BEGIN:VEVENT") = false :=
    fun x => rfl
  have hVa : ((L "BEGIN:VALARM") == L "BEGIN:VEVENT") = false := rfl
  have hAc : ((L "ACTION:DISPLAY") == L "BEGIN:VEVENT") = false := rfl
  have hEa : ((L "END:VALARM") == L "BEGIN:VEVENT") = false := rfl
  have hEv : ((L "END:VEVENT") == L "BEGIN:VEVENT") = false := rfl
  rcases he : e.time with _ | t
  all_goals
    simp [eventBlock, he, List.count_append, List.count_cons,
      apply_ite (List.count (L "BEGIN:VEVENT")),
      hU, hDt, hDs, hDe, hTz, hDur, hSum, hDesc, hLoc, hUrl, hCat, hSt, hTr,
      hTg, hRr, hVa, hAc, hEa, hEv]
  all_goals exact fun _ _ => ne_of_beq_false rfl

/-- **C7.** For every non-negative minute count the duration token is `PT`
followed by an `H` segment exactly when the hour quotient is positive and
an `M` segment exactly when the minute remainder is positive, and `PT0M`
when both vanish; a validated timed event emits a DURATION line exactly
when its effective duration is positive, and an alarm block whose trigger
token is a minus sign followed by the same-magnitude duration token exactly
when the effective reminder is positive (e.g. 30 and 15 minutes yield
`PT30M` and `-PT15M`). -/
theorem claim_C7_duration_alarm (uid dtstamp : List Char) (e : Event) (d : Defaults)
    (t : List Char) (ht : e.time = some t) (hv : validEvent e d = true)
    (hdur : 0 ≤ e.duration_minutes.getD d.duration_minutes)
    (hrem : 0 ≤ e.reminder_minutes.getD d.reminder_minutes) :
    (∀ m : Int, 0 ≤ m →
      (m.fdiv 60 = 0 ∧ m.fmod 60 = 0 → durationToken m = L "PT0M") ∧
      (0 < m.fdiv 60 ∧ m.fmod 60 = 0 →
        durationToken m = L "PT" ++ intDigits (m.fdiv 60) ++ ['H']) ∧
      (m.fdiv 60 = 0 ∧ 0 < m.fmod 60 →
        durationToken m = L "PT" ++ intDigits (m.fmod 60) ++ ['M']) ∧
      (0 < m.fdiv 60 ∧ 0 < m.fmod 60 →
        durationToken m =
          L "PT" ++ intDigits (m.fdiv 60) ++ ['H'] ++ intDigits (m.fmod 60) ++ ['M'])) ∧
    ((0 < e.duration_minutes.getD d.duration_minutes ↔
        (L "DURATION:" ++ durationToken (e.duration_minutes.getD d.duration_minutes)) ∈
          okLines (build_vevent uid dtstamp e d)) ∧
     (e.duration_minutes.getD d.duration_minutes = 0 →
        ∀ l ∈ okLines (build_vevent uid dtstamp e d), ¬ (L "DURATION:" <+: l))) ∧
    ((0 < e.reminder_minutes.getD d.reminder_minutes ↔
        (L "BEGIN:VALARM") ∈ okLines (build_vevent uid dtstamp e d)) ∧
     (0 < e.reminder_minutes.getD d.reminder_minutes →
        (L "TRIGGER:-" ++ durationToken (e.reminder_minutes.getD d.reminder_minutes)) ∈
          okLines (build_vevent uid dtstamp e d)) ∧
     (e.reminder_minutes.getD d.reminder_minutes = 0 →
        ∀ l ∈ okLines (build_vevent uid dtstamp e d), ¬ (L "TRIGGER:" <+: l))) ∧
    (durationToken 30 = L "PT30M" ∧ '-' :: durationToken 15 = L "-PT15M") := by
  have hall : e.time = none → strpdateOk (e.date.getD []) = true := by
    intro hn; rw [ht] at hn; cases hn
  have hb := build_vevent_ok uid dtstamp e d hv hall
  have hok : okLines (build_vevent uid dtstamp e d) = eventBlock uid dtstamp e d := by
    rw [hb, okLines]
  refine ⟨?_, ⟨?_, ?_⟩, ⟨?_, ?_, ?_⟩, by decide⟩
  · intro m _
    refine ⟨?_, ?_, ?_, ?_⟩
    · intro hc
      simp [durationToken, hc.1, hc.2]
      rfl
    · intro hc
      simp [durationToken, hc.1.ne', hc.2, List.append_assoc]
    · intro hc
      simp [durationToken, hc.1, hc.2.ne', List.append_assoc]
    · intro hc
      simp [durationToken, hc.1.ne', hc.2.ne', List.append_assoc]
  · constructor
    · intro hpos
      rw [hok]
      simp [eventBlock, ht, hpos.ne']
    · intro hmem
      by_contra h0
      have hz : e.duration_minutes.getD d.duration_minutes = 0 := by omega
      rw [hok] at hmem
      exact eventBlock_no_duration uid dtstamp e d hz _ hmem ⟨_, rfl⟩
  · intro h0
    rw [hok]
    exact eventBlock_no_duration uid dtstamp e d h0
  · constructor
    · intro hpos
      rw [hok]
      simp [eventBlock, ht, hpos.ne', hpos]
    · intro hmem
      by_contra h0
      have hz : e.reminder_minutes.getD d.reminder_minutes = 0 := by omega
      rw [hok] at hmem
      exact (eventBlock_no_alarm uid dtstamp e d hz _ hmem).2 rfl
  · intro hpos
    rw [hok]
    simp [eventBlock, ht, hpos.ne', hpos]
  · intro h0
    rw [hok]
    intro l hl
    exact (eventBlock_no_alarm uid dtstamp e d h0 l hl).1

/-- Witness for C7 at the spec's timed example (duration 30, reminder 15). -/
theorem claim_C7_duration_alarm_witness :
    (0 < (30 : Int) ↔
      (L "DURATION:" ++ durationToken 30) ∈
        okLines (build_vevent (L "u0") (L "t0")
          { date := some (L "2024-06-01"), time := some (L "09:00"),
            timezone := some (L "UTC"), summary := some (L "Sync"),
            reminder_minutes := some 15, duration_minutes := some 30 }
          ⟨none, 0, 60⟩)) ∧
    (0 < (15 : Int) →
      (L "TRIGGER:-" ++ durationToken 15) ∈
        okLines (build_vevent (L "u0") (L "t0")
          { date := some (L "2024-06-01"), time := some (L "09:00"),
            timezone := some (L "UTC"), summary := some (L "Sync"),
            reminder_minutes := some 15, duration_minutes := some 30 }
          ⟨none, 0, 60⟩)) ∧
    (durationToken 30 = L "PT30M" ∧ '-' :: durationToken 15 = L "-PT15M") := by
  have h := claim_C7_duration_alarm (L "u0") (L "t0")
    { date := some (L "2024-06-01"), time := some (L "09:00"),
      timezone := some (L "UTC"), summary := some (L "Sync"),
      reminder_minutes := some 15, duration_minutes := some 30 }
    ⟨none, 0, 60⟩ (L "09:00") rfl (by decide) (by decide) (by decide)
  exact ⟨h.2.1.1, h.2.2.1.2.1, h.2.2.2⟩

/-- **C9, counterexample.** A record whose `status` key is present with the
empty-string value is not rejected: the truthiness test skips the
enumeration check entirely and the build succeeds with no STATUS line, so
"any other present value causes a validation failure" fails at the present
value `""`. -/
theorem claim_C9_counterexample :
    statusEnum [] = false ∧
    build_vevent (L "u0") (L "t0")
      { date := some (L "2024-03-10"), summary := some (L "x"),
        status := some [] } ⟨none, 0, 60⟩ =
      .ok [L "BEGIN:VEVENT", L "UID:u0", L "DTSTAMP:t0",
           L "DTSTART;VALUE=DATE:20240310", L "DTEND;VALUE=DATE:20240311",
           L "SUMMARY:x", L "END:VEVENT"] :=
  ⟨rfl, rfl⟩

/-- **C9, amended.** If the status field is present with a *non-empty*
value it must belong to the three-value enumeration and if transp is
present with a non-empty value it must belong to the two-value enumeration;
any other present non-empty value causes a validation failure whose message
names the allowed enumeration, and enumeration members are emitted
verbatim — there is no silent default or coercion.  (A present empty string
is treated as absence, see C10.) -/
theorem claim_C9_enum_amended (uid dtstamp : List Char) (e : Event) (d : Defaults)
    (h1 : truthyS e.date = true) (h2 : truthyS e.summary = true)
    (h3 : dateRe (e.date.getD []) = true)
    (h4 : truthyS e.time = true → timeRe (e.time.getD []) = true)
    (h5 : e.time = none → strpdateOk (e.date.getD []) = true)
    (h6 : e.time.isNone = false → truthyS (resolveTz e d) = true) :
    (∀ s, e.status = some s → s ≠ [] → statusEnum s = false →
      build_vevent uid dtstamp e d = .error (msgBadStatus s) ∧
      (L "TENTATIVE" <:+: msgBadStatus s ∧ L "CONFIRMED" <:+: msgBadStatus s ∧
       L "CANCELLED" <:+: msgBadStatus s)) ∧
    (∀ s, e.transp = some s → s ≠ [] → transpEnum s = false →
      (truthyS e.status = true → statusEnum (e.status.getD []) = true) →
      build_vevent uid dtstamp e d = .error (msgBadTransp s) ∧
      (L "OPAQUE" <:+: msgBadTransp s ∧ L "TRANSPARENT" <:+: msgBadTransp s)) ∧
    (validEvent e d = true →
      (∀ s, e.status = some s → s ≠ [] →
        (L "STATUS:" ++ s) ∈ okLines (build_vevent uid dtstamp e d)) ∧
      (∀ s, e.transp = some s → s ≠ [] →
        (L "TRANSP:" ++ s) ∈ okLines (build_vevent uid dtstamp e d))) := by
  have hnone : truthyS (none : Option (List Char)) = false := rfl
  refine ⟨?_, ?_, ?_⟩
  · intro s hs hsne hbad
    have hst : truthyS (some s) = true := by
      cases s with
      | nil => exact absurd rfl hsne
      | cons c cs => rfl
    constructor
    · rcases he : e.time with _ | t
      · have hok := h5 he
        rw [strpdateOk] at hok
        rcases hp : parseDate10 (e.date.getD []) with _ | ymd
        · rw [hp] at hok; cases hok
        · rw [hp] at hok
          have hne := of_decide_eq_true hok
          simp [build_vevent, he, hp, h1, h2, h3, hne, hs, hst, hnone, hbad]
      · have htz := h6 (by rw [he]; rfl)
        rcases Bool.eq_false_or_eq_true (truthyS e.time) with htt | htt
        · have htm := h4 htt
          rw [he] at htt htm
          simp only [Option.getD_some] at htm
          simp [build_vevent, he, h1, h2, h3, htz, hs, hst, hbad, htt, htm]
        · rw [he] at htt
          simp [build_vevent, he, h1, h2, h3, htz, hs, hst, hbad, htt]
    · have hsuf : L "', expected TENTATIVE/CONFIRMED/CANCELLED" <:+: msgBadStatus s :=
        ⟨L "Invalid status '" ++ s, [], by simp [msgBadStatus, List.append_assoc]⟩
      exact ⟨(by decide :
          L "TENTATIVE" <:+: L "', expected TENTATIVE/CONFIRMED/CANCELLED").trans hsuf,
        (by decide :
          L "CONFIRMED" <:+: L "', expected TENTATIVE/CONFIRMED/CANCELLED").trans hsuf,
        (by decide :
          L "CANCELLED" <:+: L "', expected TENTATIVE/CONFIRMED/CANCELLED").trans hsuf⟩
  · intro s hs hsne hbad hstPass
    have htr : truthyS (some s) = true := by
      cases s with
      | nil => exact absurd rfl hsne
      | cons c cs => rfl
    have hstOk : ¬ (truthyS e.status = true ∧ ¬ statusEnum (e.status.getD []) = true) := by
      rintro ⟨hx, hy⟩
      exact hy (hstPass hx)
    constructor
    · rcases he : e.time with _ | t
      · have hok := h5 he
        rw [strpdateOk] at hok
        rcases hp : parseDate10 (e.date.getD []) with _ | ymd
        · rw [hp] at hok; cases hok
        · rw [hp] at hok
          have hne := of_decide_eq_true hok
          simp [build_vevent, he, hp, h1, h2, h3, hne, hs, htr, hnone, hbad, hstOk]
          try (intro hx hy; exact absurd (hstPass hx) (by simp [hy]))
      · have htz := h6 (by rw [he]; rfl)
        rcases Bool.eq_false_or_eq_true (truthyS e.time) with htt | htt
        · have htm := h4 htt
          rw [he] at htt htm
          simp only [Option.getD_some] at htm
          simp [build_vevent, he, h1, h2, h3, htz, hs, htr, hbad, htt, htm, hstOk]
          try (intro hx hy; exact absurd (hstPass hx) (by simp [hy]))
        · rw [he] at htt
          simp [build_vevent, he, h1, h2, h3, htz, hs, htr, hbad, htt, hstOk]
          try (intro hx hy; exact absurd (hstPass hx) (by simp [hy]))
    · have hsuf : L "', expected OPAQUE/TRANSPARENT" <:+: msgBadTransp s :=
        ⟨L "Invalid transp '" ++ s, [], by simp [msgBadTransp, List.append_assoc]⟩
      exact ⟨(by decide :
          L "OPAQUE" <:+: L "', expected OPAQUE/TRANSPARENT").trans hsuf,
        (by decide :
          L "TRANSPARENT" <:+: L "', expected OPAQUE/TRANSPARENT").trans hsuf⟩
  · intro hv
    have hb := build_vevent_ok uid dtstamp e d hv h5
    constructor
    · intro s hs hsne
      have hst : truthyS (some s) = true := by
        cases s with
        | nil => exact absurd rfl hsne
        | cons c cs => rfl
      rw [hb, okLines]
      simp [eventBlock, hs, hst]
    · intro s hs hsne
      have htr : truthyS (some s) = true := by
        cases s with
        | nil => exact absurd rfl hsne
        | cons c cs => rfl
      rw [hb, okLines]
      simp [eventBlock, hs, htr]

/-- Witness for amended C9 at the spec's example value `MAYBE`. -/
theorem claim_C9_enum_amended_witness :
    build_vevent (L "u0") (L "t0")
      { date := some (L "2024-03-10"), summary := some (L "x"),
        status := some (L "MAYBE") } ⟨none, 0, 60⟩ =
      .error (msgBadStatus (L "MAYBE")) ∧
    (L "TENTATIVE" <:+: msgBadStatus (L "MAYBE") ∧
     L "CONFIRMED" <:+: msgBadStatus (L "MAYBE") ∧
     L "CANCELLED" <:+: msgBadStatus (L "MAYBE")) :=
  (claim_C9_enum_amended (L "u0") (L "t0")
      { date := some (L "2024-03-10"), summary := some (L "x"),
        status := some (L "MAYBE") } ⟨none, 0, 60⟩
      (by decide) (by decide) (by decide) (by decide) (by decide) (by decide)).1
    (L "MAYBE") rfl (by decide) (by decide)

/-- **C10.** Every field-presence test is a Python truthiness test, so an
empty value counts as absence: a record whose summary or date is the empty
string is rejected with the missing-required-fields error; the optional
fields set to empty values are neither validated nor emitted — the build
result is identical to the build with those fields absent — and in
particular a record with status set to the empty string bypasses the
enumeration check and produces no STATUS line. -/
theorem claim_C10_empty_as_absent (uid dtstamp : List Char) (e : Event) (d : Defaults) :
    (e.summary = some [] →
      build_vevent uid dtstamp e d = .error (msgMissing e) ∧
      L "Event missing required fields" <+: msgMissing e) ∧
    (e.date = some [] →
      build_vevent uid dtstamp e d = .error (msgMissing e) ∧
      L "Event missing required fields" <+: msgMissing e) ∧
    (truthyS e.date = true → truthyS e.summary = true →
      build_vevent uid dtstamp
        { e with status := some [], transp := some [], description := some [],
                 location := some [], url := some [], rrule := some [],
                 categories := some ([] : List (List Char)) } d =
      build_vevent uid dtstamp
        { e with status := none, transp := none, description := none,
                 location := none, url := none, rrule := none,
                 categories := none } d) ∧
    (validEvent e d = true →
      (e.time = none → strpdateOk (e.date.getD []) = true) →
      e.status = some [] →
      ∃ b, build_vevent uid dtstamp e d = .ok b ∧
        ∀ l ∈ b, ¬ (L "STATUS:" <+: l)) := by
  have hf : truthyS (some ([] : List Char)) = false := rfl
  have hn : truthyS (none : Option (List Char)) = false := rfl
  have hfL : truthyL (some ([] : List (List Char))) = false := rfl
  have hnL : truthyL (none : Option (List (List Char))) = false := rfl
  refine ⟨?_, ?_, ?_, ?_⟩
  · intro hs
    constructor
    · have hx : truthyS e.summary = false := by rw [hs]; rfl
      simp [build_vevent, hx]
    · exact ⟨L " (date, summary): " ++ reprEvent e, rfl⟩
  · intro hd
    constructor
    · have hx : truthyS e.date = false := by rw [hd]; rfl
      simp [build_vevent, hx]
    · exact ⟨L " (date, summary): " ++ reprEvent e, rfl⟩
  · intro hd hsum
    simp [build_vevent, resolveTz, hd, hsum, hf, hn, hfL, hnL]
  · intro hv hall hs
    have hb := build_vevent_ok uid dtstamp e d hv hall
    refine ⟨_, hb, ?_⟩
    have hstF : truthyS e.status = false := by rw [hs]; rfl
    exact eventBlock_no_status uid dtstamp e d hstF

/-- Witness for C10: an empty summary is rejected as missing, empty
optional fields build exactly as absent ones, and an empty status yields a
successful build with no STATUS line. -/
theorem claim_C10_empty_as_absent_witness :
    (build_vevent (L "u0") (L "t0")
        { date := some (L "2024-03-10"), summary := some [] } ⟨none, 0, 60⟩ =
      .error (msgMissing { date := some (L "2024-03-10"), summary := some [] }) ∧
     L "Event missing required fields" <+:
       msgMissing { date := some (L "2024-03-10"), summary := some [] }) ∧
    (build_vevent (L "u0") (L "t0")
        { date := some (L "2024-03-10"), summary := some (L "x"),
          status := some [], transp := some [], description := some [],
          location := some [], url := some [], rrule := some [],
          categories := some ([] : List (List Char)) } ⟨none, 0, 60⟩ =
      build_vevent (L "u0") (L "t0")
        { date := some (L "2024-03-10"), summary := some (L "x") } ⟨none, 0, 60⟩) ∧
    (∃ b, build_vevent (L "u0") (L "t0")
        { date := some (L "2024-03-10"), summary := some (L "x"),
          status := some [] } ⟨none, 0, 60⟩ = .ok b ∧
        ∀ l ∈ b, ¬ (L "STATUS:" <+: l)) :=
  ⟨(claim_C10_empty_as_absent (L "u0") (L "t0")
      { date := some (L "2024-03-10"), summary := some [] } ⟨none, 0, 60⟩).1 rfl,
   (claim_C10_empty_as_absent (L "u0") (L "t0")
      { date := some (L "2024-03-10"), summary := some (L "x") }
      ⟨none, 0, 60⟩).2.2.1 (by decide) (by decide),
   (claim_C10_empty_as_absent (L "u0") (L "t0")
      { date := some (L "2024-03-10"), summary := some (L "x"),
        status := some [] } ⟨none, 0, 60⟩).2.2.2 (by decide) (by decide) rfl⟩

/-! ## The event loop -/

theorem buildAll_ok (ug dg : Nat → List Char) (d : Defaults) :
    ∀ (es : List Event) (i : Nat),
      (∀ e ∈ es, validEvent e d = true ∧
        (e.time = none → strpdateOk (e.date.getD []) = true)) →
      buildAll ug dg d i es = .ok (eventBlocksFrom ug dg d i es) := by
  intro es
  induction es with
  | nil => intro i _; rfl
  | cons e rest ih =>
      intro i h
      obtain ⟨hv, hall⟩ := h e (by simp)
      rw [buildAll, build_vevent_ok _ _ _ _ hv hall,
        ih (i + 1) (fun x hx => h x (by simp [hx]))]
      rfl

theorem buildAll_error (ug dg : Nat → List Char) (d : Defaults) :
    ∀ (es : List Event) (i j : Nat) (hj : j < es.length) (m : List Char),
      (∀ k (hk : k < j), Except.isOk (build_vevent (ug (i + k)) (dg (i + k))
          (es.get ⟨k, by omega⟩) d) = true) →
      build_vevent (ug (i + j)) (dg (i + j)) (es.get ⟨j, hj⟩) d = .error m →
      buildAll ug dg d i es = .error m := by
  intro es
  induction es with
  | nil => intro i j hj; simp at hj
  | cons e rest ih =>
      intro i j hj m hprev herr
      cases j with
      | zero =>
          rw [buildAll]
          have herr' : build_vevent (ug i) (dg i) e d = .error m := by
            have ha : i + 0 = i := rfl
            rw [ha] at herr
            exact herr
          rw [herr']
      | succ j' =>
          rw [buildAll]
          have h0 : Except.isOk (build_vevent (ug i) (dg i) e d) = true := by
            have hx := hprev 0 (Nat.succ_pos j')
            have ha : i + 0 = i := rfl
            rw [ha] at hx
            exact hx
          rcases hb : build_vevent (ug i) (dg i) e d with m0 | b0
          · rw [hb] at h0
            simp [Except.isOk, Except.toBool] at h0
          · have hj' : j' < rest.length := by
              simpa using Nat.lt_of_succ_lt_succ hj
            have hrec := ih (i + 1) j' hj' m ?_ ?_
            · rw [hrec]
            · intro k hk
              have hx := hprev (k + 1) (Nat.succ_lt_succ hk)
              have harith : i + (k + 1) = i + 1 + k := by omega
              rw [harith] at hx
              exact hx
            · have harith : i + (j' + 1) = i + 1 + j' := by omega
              rw [harith] at herr
              exact herr

/-- **C8.** Document generation fails with the validation error when the
event sequence is absent or empty; when a record fails, the whole build
fails with the first error in input-record order and no output is
produced. -/
theorem claim_C8_failfast (ug dg : Nat → List Char) (data : InputData) :
    (data.events = none → generate_ics ug dg data = .error msgEmpty) ∧
    (data.events = some [] → generate_ics ug dg data = .error msgEmpty) ∧
    (∀ es, data.events = some es →
      ∀ (j : Nat) (hj : j < es.length) (m : List Char),
        (∀ k (hk : k < j), Except.isOk (build_vevent (ug k) (dg k)
            (es.get ⟨k, by omega⟩) (mkDefaults data)) = true) →
        build_vevent (ug j) (dg j) (es.get ⟨j, hj⟩) (mkDefaults data) = .error m →
        generate_ics ug dg data = .error m) := by
  refine ⟨?_, ?_, ?_⟩
  · intro h; simp [generate_ics, h]
  · intro h; simp [generate_ics, h]
  · intro es he j hj m hprev herr
    have hba : buildAll ug dg (mkDefaults data) 0 es = .error m := by
      refine buildAll_error ug dg (mkDefaults data) es 0 j hj m ?_ ?_
      · intro k hk
        have hx := hprev k hk
        simpa [Nat.zero_add] using hx
      · simpa [Nat.zero_add] using herr
    cases es with
    | nil => simp at hj
    | cons e rest =>
        simp only [generate_ics, he]
        rw [hba]

/-- Witness for C8: absent and empty event lists fail with the fixed
message, and in a two-record document whose second record has a malformed
date the generation fails with exactly that record's error. -/
theorem claim_C8_failfast_witness :
    generate_ics (fun _ => L "u") (fun _ => L "t") { events := none } = .error msgEmpty ∧
    generate_ics (fun _ => L "u") (fun _ => L "t") { events := some [] } = .error msgEmpty ∧
    generate_ics (fun _ => L "u") (fun _ => L "t")
      { events := some [{ date := some (L "2024-03-10"), summary := some (L "a") },
                        { date := some (L "2024/03/10"), summary := some (L "b") }] } =
      .error (msgBadDate (L "2024/03/10")) := by
  refine ⟨(claim_C8_failfast _ _ _).1 rfl, (claim_C8_failfast _ _ _).2.1 rfl, ?_⟩
  refine (claim_C8_failfast (fun _ => L "u") (fun _ => L "t") _).2.2 _ rfl 1
    (by decide) (msgBadDate (L "2024/03/10")) ?_ ?_
  · intro k hk
    have hk0 : k = 0 := by omega
    subst hk0
    rfl
  · rfl

/-! ## Joining and splitting the document -/

theorem joinSep_cons₂ (sep a b : List Char) (rest : List (List Char)) :
    joinSep sep (a :: b :: rest) = a ++ sep ++ joinSep sep (b :: rest) := by
  simp only [joinSep]

theorem joinSep_append (sep : List Char) :
    ∀ (as bs : List (List Char)), as ≠ [] → bs ≠ [] →
      joinSep sep (as ++ bs) = joinSep sep as ++ sep ++ joinSep sep bs := by
  intro as
  induction as with
  | nil => intro bs h; exact absurd rfl h
  | cons a rest ih =>
      intro bs _ hbs
      cases rest with
      | nil =>
          cases bs with
          | nil => exact absurd rfl hbs
          | cons b bs' => simp [joinSep]
      | cons a2 rest2 =>
          have hr := ih bs (by simp) hbs
          have hr' : joinSep sep (a2 :: (rest2 ++ bs)) =
              joinSep sep (a2 :: rest2) ++ sep ++ joinSep sep bs := by
            rw [← List.cons_append]
            exact hr
          show joinSep sep (a :: (a2 :: (rest2 ++ bs))) = _
          rw [joinSep_cons₂]
          rw [hr']
          rw [joinSep_cons₂]
          simp [List.append_assoc]

theorem splitCRLF_noCRLF (l : List Char) (h : noCRLF l = true) :
    splitCRLF l = [l] := by
  induction l with
  | nil => rfl
  | cons a rest ih =>
      cases rest with
      | nil => rfl
      | cons b rs =>
          obtain ⟨h1, h2⟩ := noCRLF_cons₂ a b rs h
          rw [splitCRLF, if_neg h1, ih h2]

theorem splitCRLF_chunk (l : List Char) :
    noCRLF l = true → ∀ t : List Char,
      splitCRLF (l ++ '\r' :: '\n' :: t) = l :: splitCRLF t := by
  induction l with
  | nil =>
      intro _ t
      show splitCRLF ('\r' :: '\n' :: t) = [] :: splitCRLF t
      rw [splitCRLF.eq_def]
      simp
  | cons a rest ih =>
      intro h t
      cases rest with
      | nil =>
          show splitCRLF (a :: '\r' :: '\n' :: t) = [a] :: splitCRLF t
          rw [splitCRLF, if_neg (by rintro ⟨-, hq⟩; exact absurd hq (by decide))]
          rw [show splitCRLF ('\r' :: '\n' :: t) = [] :: splitCRLF t by
            rw [splitCRLF.eq_def]; simp]
      | cons b rs =>
          obtain ⟨h1, h2⟩ := noCRLF_cons₂ a b rs h
          have hrec := ih h2 t
          rw [List.cons_append] at hrec
          show splitCRLF (a :: (b :: (rs ++ '\r' :: '\n' :: t))) = _
          rw [splitCRLF.eq_def]
          simp [h1, hrec]

theorem joinSep_singleton (sep l : List Char) : joinSep sep [l] = l := by
  simp only [joinSep]

theorem split_join (lines : List (List Char)) :
    (∀ l ∈ lines, noCRLF l = true) → lines ≠ [] →
      splitCRLF (joinSep (L "\r\n") lines) = lines := by
  induction lines with
  | nil => intro _ h; exact absurd rfl h
  | cons l ls ih =>
      intro h _
      cases ls with
      | nil =>
          rw [joinSep_singleton]
          exact splitCRLF_noCRLF l (h l (by simp))
      | cons l2 ls2 =>
          rw [joinSep_cons₂, List.append_assoc]
          show splitCRLF (l ++ '\r' :: '\n' :: joinSep (L "\r\n") (l2 :: ls2)) = _
          rw [splitCRLF_chunk l (h l (by simp)) _]
          rw [ih (fun x hx => h x (by simp [hx])) (by simp)]

theorem fold_content_join (lines : List (List Char))
    (h : ∀ l ∈ lines, noCRLF l = true) (hne : lines ≠ []) :
    fold_content (joinSep (L "\r\n") lines) =
      joinSep (L "\r\n") (lines.map fold_line) := by
  rw [fold_content, split_join lines h hne]

/-! ## No-linefeed toolkit

Every generated property line is CRLF-clean: its variable part either
carries an explicit hypothesis or consists of digit/escape output that can
contain no line feed at all. -/

theorem noCRLF_of_noLF (l : List Char) (h : ∀ c ∈ l, c ≠ '\n') :
    noCRLF l = true := by
  induction l with
  | nil => rfl
  | cons a rest ih =>
      cases rest with
      | nil => rfl
      | cons b rs =>
          rw [noCRLF]
          have hb : b ≠ '\n' := h b (by simp)
          have hr := ih (fun c hc => h c (by simp [hc]))
          simp [hb, hr]

set_option maxHeartbeats 1000000 in
theorem digitChar_ne_lf (k : Nat) : Nat.digitChar k ≠ '\n' := by
  intro h
  rcases Nat.lt_or_ge k 16 with hk | hk
  · interval_cases k <;> exact absurd h (by decide)
  · rw [Nat.digitChar] at h
    iterate 16 rw [if_neg (by omega)] at h
    exact absurd h (by decide)

theorem toDigitsCore_noLF (b : Nat) :
    ∀ (fuel n : Nat) (ds : List Char), (∀ c ∈ ds, c ≠ '\n') →
      ∀ c ∈ Nat.toDigitsCore b fuel n ds, c ≠ '\n' := by
  intro fuel
  induction fuel with
  | zero => intro n ds hds c hc; exact hds c hc
  | succ f ih =>
      intro n ds hds c hc
      rw [Nat.toDigitsCore] at hc
      split at hc
      · rcases List.mem_cons.mp hc with rfl | hc
        · exact digitChar_ne_lf _
        · exact hds c hc
      · refine ih _ _ ?_ c hc
        intro x hx
        rcases List.mem_cons.mp hx with rfl | hx
        · exact digitChar_ne_lf _
        · exact hds x hx

theorem toDigits_noLF (n : Nat) : ∀ c ∈ Nat.toDigits 10 n, c ≠ '\n' :=
  toDigitsCore_noLF 10 (n + 1) n [] (by simp)

theorem intDigits_noLF (i : Int) : ∀ c ∈ intDigits i, c ≠ '\n' := by
  intro c hc
  rw [intDigits] at hc
  split at hc
  · rcases List.mem_cons.mp hc with rfl | hc
    · decide
    · exact toDigits_noLF _ c hc
  · exact toDigits_noLF _ c hc

theorem durationToken_noLF (m : Int) : ∀ c ∈ durationToken m, c ≠ '\n' := by
  have hPT : L "PT" = ['P', 'T'] := rfl
  have h0M : L "0M" = ['0', 'M'] := rfl
  intro c hc
  rw [durationToken] at hc
  simp only [List.mem_append] at hc
  rcases hc with ((hc | hc) | hc) | hc
  · rw [hPT] at hc
    simp at hc
    rcases hc with rfl | rfl <;> decide
  · split at hc
    · rcases List.mem_append.mp hc with hc | hc
      · exact intDigits_noLF _ c hc
      · rcases List.mem_singleton.mp hc with rfl; decide
    · cases hc
  · split at hc
    · rcases List.mem_append.mp hc with hc | hc
      · exact intDigits_noLF _ c hc
      · rcases List.mem_singleton.mp hc with rfl; decide
    · cases hc
  · split at hc
    · rw [h0M] at hc
      simp at hc
      rcases hc with rfl | rfl <;> decide
    · cases hc

theorem fmtYMD_noLF (ymd : Nat × Nat × Nat) : ∀ c ∈ fmtYMD ymd, c ≠ '\n' := by
  obtain ⟨y, m, d⟩ := ymd
  intro c hc
  rw [fmtYMD] at hc
  simp only [List.mem_append, List.mem_replicate] at hc
  rcases hc with (h1 | h1) | h1 <;> rcases h1 with ⟨-, rfl⟩ | h1
  all_goals first
    | decide
    | exact toDigits_noLF _ c h1

theorem escape_text_noLF (s : List Char) : ∀ c ∈ escape_text s, c ≠ '\n' := by
  intro c hc
  rw [escape_flatten] at hc
  rcases List.mem_flatten.mp hc with ⟨tok, htok, hmem⟩
  rcases List.mem_map.mp htok with ⟨x, -, rfl⟩
  rw [escChar] at hmem
  split_ifs at hmem with h1 h2 h3 h4 <;> simp at hmem
  · rcases hmem with rfl | rfl <;> decide
  · rcases hmem with rfl | rfl <;> decide
  · rcases hmem with rfl | rfl <;> decide
  · rcases hmem with rfl | rfl <;> decide
  · subst hmem
    exact h4

theorem noCRLF_append_bd :
    ∀ (a b : List Char), noCRLF a = true → noCRLF b = true →
      (a.getLast? ≠ some '\r' ∨ b.head? ≠ some '\n') → noCRLF (a ++ b) = true := by
  intro a
  induction a with
  | nil => intro b _ hb _; exact hb
  | cons x xs ih =>
      intro b ha hb hbd
      cases xs with
      | nil =>
          cases b with
          | nil => rfl
          | cons y t =>
              show noCRLF (x :: y :: t) = true
              rw [noCRLF]
              have hpair : ¬(x = '\r' ∧ y = '\n') := by
                rcases hbd with h | h
                · intro hc; exact h (by simp [hc.1])
                · intro hc; exact h (by simp [hc.2])
              refine (Bool.and_eq_true _ _).mpr ⟨?_, hb⟩
              by_cases hx : x = '\r'
              · subst hx
                have hy : y ≠ '\n' := fun hy => hpair ⟨rfl, hy⟩
                simp [hy]
              · simp [hx]
      | cons x2 xs2 =>
          rw [List.cons_append]
          obtain ⟨h1, h2⟩ := noCRLF_cons₂ x x2 xs2 ha
          have hbd' : (x2 :: xs2).getLast? ≠ some '\r' ∨ b.head? ≠ some '\n' := by
            rcases hbd with h | h
            · left; rwa [List.getLast?_cons_cons] at h
            · right; exact h
          have hrec := ih b h2 hb hbd'
          rw [List.cons_append] at hrec
          show noCRLF (x :: (x2 :: (xs2 ++ b))) = true
          rw [noCRLF]
          refine (Bool.and_eq_true _ _).mpr ⟨?_, hrec⟩
          by_cases hx : x = '\r'
          · subst hx
            have hy : x2 ≠ '\n' := fun hy => h1 ⟨rfl, hy⟩
            simp [hy]
          · simp [hx]

theorem noCRLF_concat_noLF (a b : List Char) (ha : noCRLF a = true)
    (hb : ∀ c ∈ b, c ≠ '\n') : noCRLF (a ++ b) = true := by
  refine noCRLF_append_bd a b ha (noCRLF_of_noLF b hb) (Or.inr ?_)
  cases b with
  | nil => simp
  | cons y t => simpa using hb y (by simp)

theorem isDigit_ne_lf (c : Char) (h : isDigit c = true) : c ≠ '\n' := by
  rintro rfl
  exact absurd h (by decide)

theorem dateRe_noLF (s : List Char) (h : dateRe s = true) : ∀ c ∈ s, c ≠ '\n' := by
  unfold dateRe at h
  split at h
  · simp only [Bool.and_eq_true] at h
    obtain ⟨⟨⟨⟨⟨⟨⟨ha, hb⟩, hc0⟩, hd0⟩, he0⟩, hf0⟩, hg0⟩, hh0⟩ := h
    intro c hcm
    simp at hcm
    rcases hcm with rfl | rfl | rfl | rfl | rfl | rfl | rfl | rfl | rfl | rfl
    · exact isDigit_ne_lf _ ha
    · exact isDigit_ne_lf _ hb
    · exact isDigit_ne_lf _ hc0
    · exact isDigit_ne_lf _ hd0
    · decide
    · exact isDigit_ne_lf _ he0
    · exact isDigit_ne_lf _ hf0
    · decide
    · exact isDigit_ne_lf _ hg0
    · exact isDigit_ne_lf _ hh0
  · exact absurd h (by decide)

theorem timeRe_noLF (s : List Char) (h : timeRe s = true) : ∀ c ∈ s, c ≠ '\n' := by
  unfold timeRe at h
  split at h
  · simp only [Bool.and_eq_true] at h
    obtain ⟨⟨⟨ha, hb⟩, hc0⟩, hd0⟩ := h
    intro c hcm
    simp at hcm
    rcases hcm with rfl | rfl | rfl | rfl | rfl
    · exact isDigit_ne_lf _ ha
    · exact isDigit_ne_lf _ hb
    · decide
    · exact isDigit_ne_lf _ hc0
    · exact isDigit_ne_lf _ hd0
  · exact absurd h (by decide)

theorem statusEnum_noCRLF (s : List Char) (h : statusEnum s = true) :
    noCRLF s = true := by
  rw [statusEnum] at h
  simp only [Bool.or_eq_true, beq_iff_eq] at h
  rcases h with (rfl | rfl) | rfl <;> decide

theorem transpEnum_noCRLF (s : List Char) (h : transpEnum s = true) :
    noCRLF s = true := by
  rw [transpEnum] at h
  simp only [Bool.or_eq_true, beq_iff_eq] at h
  rcases h with rfl | rfl <;> decide

theorem joinComma_noCRLF (cats : List (List Char))
    (h : ∀ c ∈ cats, noCRLF c = true) : noCRLF (joinSep [','] cats) = true := by
  induction cats with
  | nil => decide
  | cons c cs ih =>
      cases cs with
      | nil =>
          rw [joinSep_singleton]
          exact h c (by simp)
      | cons c2 cs2 =>
          rw [joinSep_cons₂]
          refine noCRLF_append_bd _ _ ?_ (ih (fun x hx => h x (by simp [hx]))) ?_
          · refine noCRLF_append_bd _ _ (h c (by simp)) (by decide) (Or.inr (by decide))
          · left
            rw [List.getLast?_concat]
            decide

theorem format_datetime_noLF (date t : List Char)
    (hd : ∀ c ∈ date, c ≠ '\n') (ht : ∀ c ∈ t, c ≠ '\n') :
    ∀ c ∈ format_datetime date t, c ≠ '\n' := by
  have h00 : L "00" = ['0', '0'] := rfl
  intro c hc
  rw [format_datetime, h00] at hc
  simp only [List.mem_append, List.mem_cons] at hc
  rcases hc with (hc | rfl | hc) | hc
  · exact hd c (List.mem_of_mem_filter hc)
  · decide
  · exact ht c (List.mem_of_mem_filter hc)
  · simp at hc
    rcases hc with rfl | rfl <;> decide

theorem eventBlock_noCRLF (uid dtstamp : List Char) (e : Event) (d : Defaults)
    (hv : validEvent e d = true)
    (hu : noCRLF uid = true) (hdt : noCRLF dtstamp = true)
    (hurl : noCRLF (e.url.getD []) = true)
    (hrr : noCRLF (e.rrule.getD []) = true)
    (htz : noCRLF ((resolveTz e d).getD []) = true)
    (hcat : ∀ c ∈ e.categories.getD [], noCRLF c = true) :
    ∀ l ∈ eventBlock uid dtstamp e d, noCRLF l = true := by
  simp only [validEvent, Bool.and_eq_true] at hv
  obtain ⟨⟨⟨⟨⟨⟨h1, h2⟩, h3⟩, h4⟩, h5⟩, h6⟩, h7⟩ := hv
  have hdateF : ∀ c ∈ format_date (e.date.getD []), c ≠ '\n' :=
    fun c hc => dateRe_noLF _ h3 c (List.mem_of_mem_filter hc)
  have hdateLF : ∀ c ∈ e.date.getD [], c ≠ '\n' := dateRe_noLF _ h3
  have hstL : truthyS e.status = true →
      noCRLF (L "STATUS:" ++ e.status.getD []) = true := by
    intro hx
    rcases (Bool.or_eq_true _ _).mp h6 with h | h
    · rw [hx] at h; simp at h
    · exact noCRLF_append_bd _ _ (by decide) (statusEnum_noCRLF _ h)
        (Or.inl (by decide))
  have htrL : truthyS e.transp = true →
      noCRLF (L "TRANSP:" ++ e.transp.getD []) = true := by
    intro hx
    rcases (Bool.or_eq_true _ _).mp h7 with h | h
    · rw [hx] at h; simp at h
    · exact noCRLF_append_bd _ _ (by decide) (transpEnum_noCRLF _ h)
        (Or.inl (by decide))
  rcases he : e.time with _ | t
  · simp only [eventBlock, he, List.forall_mem_append, forall_mem_ite_nil,
      List.forall_mem_cons, List.forall_mem_singleton]
    all_goals repeat' apply And.intro
    all_goals intros
    all_goals repeat' apply And.intro
    all_goals
      first
        | decide
        | exact noCRLF_append_bd _ _ (by decide) hu (Or.inl (by decide))
        | exact noCRLF_append_bd _ _ (by decide) hdt (Or.inl (by decide))
        | exact noCRLF_append_bd _ _ (by decide) hurl (Or.inl (by decide))
        | exact noCRLF_append_bd _ _ (by decide) hrr (Or.inl (by decide))
        | exact noCRLF_append_bd _ _ (by decide) (joinComma_noCRLF _ hcat)
            (Or.inl (by decide))
        | exact noCRLF_concat_noLF _ _ (by decide) (escape_text_noLF _)
        | exact noCRLF_concat_noLF _ _ (by decide) (durationToken_noLF _)
        | exact noCRLF_concat_noLF _ _ (by decide) (fmtYMD_noLF _)
        | exact noCRLF_concat_noLF _ _ (by decide) hdateF
        | exact hstL (by assumption)
        | exact htrL (by assumption)
        | (intro y hy; exact absurd hy (List.not_mem_nil y))
        | exact absurd (by assumption) (List.not_mem_nil _)
  · have htLF : ∀ c ∈ t, c ≠ '\n' := by
      cases t with
      | nil => simp
      | cons c0 cs0 =>
          rw [he] at h4
          rcases (Bool.or_eq_true _ _).mp h4 with h | h
          · simp [truthyS] at h
          · exact timeRe_noLF _ (by simpa using h)
    have hdtline : noCRLF (L "DTSTART;TZID=" ++ (resolveTz e d).getD [] ++
        ':' :: format_datetime (e.date.getD []) t) = true := by
      refine noCRLF_append_bd _ _ ?_ ?_
        (Or.inr (fun h => absurd (Option.some.inj h) (by decide)))
      · exact noCRLF_append_bd _ _ (by decide) htz (Or.inl (by decide))
      · refine noCRLF_of_noLF _ ?_
        intro c hc
        rcases List.mem_cons.mp hc with rfl | hc
        · decide
        · exact format_datetime_noLF _ _ hdateLF htLF c hc
    simp only [eventBlock, he, List.forall_mem_append, forall_mem_ite_nil,
      List.forall_mem_cons, List.forall_mem_singleton]
    all_goals repeat' apply And.intro
    all_goals intros
    all_goals repeat' apply And.intro
    all_goals
      first
        | decide
        | exact noCRLF_append_bd _ _ (by decide) hu (Or.inl (by decide))
        | exact noCRLF_append_bd _ _ (by decide) hdt (Or.inl (by decide))
        | exact noCRLF_append_bd _ _ (by decide) hurl (Or.inl (by decide))
        | exact noCRLF_append_bd _ _ (by decide) hrr (Or.inl (by decide))
        | exact noCRLF_append_bd _ _ (by decide) (joinComma_noCRLF _ hcat)
            (Or.inl (by decide))
        | exact noCRLF_concat_noLF _ _ (by decide) (escape_text_noLF _)
        | exact noCRLF_concat_noLF _ _ (by decide) (durationToken_noLF _)
        | exact noCRLF_concat_noLF _ _ (by decide) (fmtYMD_noLF _)
        | exact hdtline
        | exact hstL (by assumption)
        | exact htrL (by assumption)
        | (intro y hy; exact absurd hy (List.not_mem_nil y))
        | exact absurd (by assumption) (List.not_mem_nil _)

/-! ## Document structure -/

theorem append_ne_nil_left {α : Type} {as bs : List α} (h : as ≠ []) :
    as ++ bs ≠ [] := by
  cases as with
  | nil => exact absurd rfl h
  | cons a t => simp

theorem eventBlock_ne_nil (uid dtstamp : List Char) (e : Event) (d : Defaults) :
    eventBlock uid dtstamp e d ≠ [] :=
  fun hx => List.cons_ne_nil _ _ hx

theorem eventBlocksFrom_ne_nil (ug dg : Nat → List Char) (d : Defaults) :
    ∀ (es : List Event) (i : Nat) (b : List (List Char)),
      b ∈ eventBlocksFrom ug dg d i es → b ≠ [] := by
  intro es
  induction es with
  | nil =>
      intro i b hb
      rw [eventBlocksFrom] at hb
      exact absurd hb (List.not_mem_nil b)
  | cons e rest ih =>
      intro i b hb
      rw [eventBlocksFrom] at hb
      rcases List.mem_cons.mp hb with rfl | hb
      · exact eventBlock_ne_nil _ _ _ _
      · exact ih (i + 1) b hb

theorem joinSep_map_join (sep : List Char) :
    ∀ (blocks : List (List (List Char))), (∀ b ∈ blocks, b ≠ []) → blocks ≠ [] →
      joinSep sep (blocks.map (joinSep sep)) = joinSep sep blocks.flatten := by
  intro blocks
  induction blocks with
  | nil => intro _ h; exact absurd rfl h
  | cons b rest ih =>
      intro hall _
      cases rest with
      | nil =>
          show joinSep sep [joinSep sep b] = joinSep sep [b].flatten
          rw [joinSep_singleton, List.flatten_cons, List.flatten_nil,
            List.append_nil]
      | cons b2 rest2 =>
          have hr := ih (fun x hx => hall x (by simp [hx])) (by simp)
          have hb : b ≠ [] := hall b (by simp)
          have hflne : (b2 :: rest2).flatten ≠ [] := by
            rw [List.flatten_cons]
            exact append_ne_nil_left (hall b2 (by simp))
          show joinSep sep
              (joinSep sep b :: joinSep sep b2 :: rest2.map (joinSep sep)) =
            joinSep sep ((b :: b2 :: rest2).flatten)
          rw [joinSep_cons₂]
          have hmapfold : joinSep sep b2 :: rest2.map (joinSep sep) =
              (b2 :: rest2).map (joinSep sep) := rfl
          rw [hmapfold, hr]
          rw [show (b :: b2 :: rest2).flatten = b ++ (b2 :: rest2).flatten from
            List.flatten_cons]
          rw [joinSep_append sep b (b2 :: rest2).flatten hb hflne]

theorem eventBlocksFrom_count_begin (ug dg : Nat → List Char) (d : Defaults) :
    ∀ (es : List Event) (i : Nat),
      ((eventBlocksFrom ug dg d i es).flatten).count (L "BEGIN:VEVENT") =
        es.length := by
  intro es
  induction es with
  | nil => intro i; rfl
  | cons e rest ih =>
      intro i
      rw [eventBlocksFrom, List.flatten_cons, List.count_append,
        eventBlock_count_begin, ih (i + 1)]
      simp [Nat.add_comm]

theorem eventBlocksFrom_noCRLF (ug dg : Nat → List Char) (d : Defaults)
    (hu : ∀ i, noCRLF (ug i) = true) (hdt : ∀ i, noCRLF (dg i) = true) :
    ∀ (es : List Event) (i : Nat),
      (∀ e ∈ es, validEvent e d = true ∧ noCRLF (e.url.getD []) = true ∧
        noCRLF (e.rrule.getD []) = true ∧
        noCRLF ((resolveTz e d).getD []) = true ∧
        (∀ c ∈ e.categories.getD [], noCRLF c = true)) →
      ∀ l ∈ (eventBlocksFrom ug dg d i es).flatten, noCRLF l = true := by
  intro es
  induction es with
  | nil =>
      intro i _ l hl
      rw [eventBlocksFrom] at hl
      exact absurd hl (List.not_mem_nil l)
  | cons e rest ih =>
      intro i h l hl
      rw [eventBlocksFrom, List.flatten_cons] at hl
      rcases List.mem_append.mp hl with hL | hR
      · obtain ⟨hv, hurl, hrr, htz, hcat⟩ := h e (by simp)
        exact eventBlock_noCRLF _ _ _ _ hv (hu i) (hdt i) hurl hrr htz hcat l hL
      · exact ih (i + 1) (fun x hx => h x (by simp [hx])) l hR

theorem joinSep_doc (sep : List Char) (blocks : List (List (List Char)))
    (hall : ∀ b ∈ blocks, b ≠ []) (hbne : blocks ≠ []) :
    joinSep sep (headerLines ++ blocks.map (joinSep sep) ++ [L "END:VCALENDAR"]) =
      joinSep sep (headerLines ++ blocks.flatten ++ [L "END:VCALENDAR"]) := by
  have hmapne : blocks.map (joinSep sep) ≠ [] := by
    cases blocks with
    | nil => exact absurd rfl hbne
    | cons b bs => simp
  have hflne : blocks.flatten ≠ [] := by
    cases blocks with
    | nil => exact absurd rfl hbne
    | cons b bs =>
        rw [List.flatten_cons]
        exact append_ne_nil_left (hall b (by simp))
  have hhdr : (headerLines : List (List Char)) ≠ [] := by simp [headerLines]
  rw [joinSep_append sep (headerLines ++ blocks.map (joinSep sep))
      [L "END:VCALENDAR"] (append_ne_nil_left hhdr) (by simp)]
  rw [joinSep_append sep (headerLines ++ blocks.flatten)
      [L "END:VCALENDAR"] (append_ne_nil_left hhdr) (by simp)]
  rw [joinSep_append sep headerLines (blocks.map (joinSep sep)) hhdr hmapne]
  rw [joinSep_append sep headerLines blocks.flatten hhdr hflne]
  rw [joinSep_map_join sep blocks hall hbne]

/-- Counterexample to C5 as stated: a single record that passes every
validator rule but whose `url` field embeds a CRLF yields a document whose
physical lines contain `BEGIN:VEVENT` twice — the output no longer consists
of exactly one VEVENT block per input record, because `url`, `rrule`,
`categories`, the timezone and the uid/dtstamp strings are emitted verbatim
without escaping. -/
theorem claim_C5_counterexample :
    (splitCRLF (okText (generate_ics (fun _ => L "u") (fun _ => L "t")
        { events := some [{
            date := some (L "2024-03-10"),
            summary := some (L "a"),
            url := some (L "h\r\nBEGIN:VEVENT") }] }))).count
      (L "BEGIN:VEVENT") = 2 := by decide

/-- **C5** (amended).  For every document whose records all pass validation
(and, for all-day records, carry a real calendar date below the datetime
maximum), and whose verbatim-emitted parts — the uid and dtstamp strings,
`url`, `rrule`, the resolved timezone and every category — are free of CRLF,
the generation succeeds and the text is exactly the fold of the logical
line list `docLines`: the five envelope header lines first, then one block
of property lines per input record in input order — each block in the fixed
order UID, DTSTAMP, start/end-or-duration tokens, SUMMARY, DESCRIPTION,
LOCATION, URL, CATEGORIES, STATUS, TRANSP, RRULE, optional alarm, as the
definition `eventBlock` spells out — and the matching `END:VCALENDAR`
footer last; these logical lines are CRLF-free, the header is a prefix,
the footer is the last line, and `BEGIN:VEVENT` opens exactly one block
per record.  Without the CRLF-cleanliness hypotheses the claim fails
(`claim_C5_counterexample`). -/
theorem claim_C5_structure (ug dg : Nat → List Char) (data : InputData)
    (es : List Event) (hes : data.events = some es) (hne : es ≠ [])
    (hv : ∀ e ∈ es, validEvent e (mkDefaults data) = true ∧
        (e.time = none → strpdateOk (e.date.getD []) = true))
    (hu : ∀ i, noCRLF (ug i) = true) (hdt : ∀ i, noCRLF (dg i) = true)
    (hclean : ∀ e ∈ es, noCRLF (e.url.getD []) = true ∧
        noCRLF (e.rrule.getD []) = true ∧
        noCRLF ((resolveTz e (mkDefaults data)).getD []) = true ∧
        ∀ c ∈ e.categories.getD [], noCRLF c = true) :
    generate_ics ug dg data =
      .ok (fold_content (joinSep (L "\r\n")
        (docLines ug dg (mkDefaults data) es))) ∧
    headerLines <+: docLines ug dg (mkDefaults data) es ∧
    (docLines ug dg (mkDefaults data) es).getLast? = some (L "END:VCALENDAR") ∧
    (∀ l ∈ docLines ug dg (mkDefaults data) es, noCRLF l = true) ∧
    (docLines ug dg (mkDefaults data) es).count (L "BEGIN:VEVENT") =
      es.length := by
  cases es with
  | nil => exact absurd rfl hne
  | cons e0 rest =>
      refine ⟨?_, ?_, ?_, ?_, ?_⟩
      · simp only [generate_ics, hes]
        rw [buildAll_ok ug dg (mkDefaults data) (e0 :: rest) 0 hv]
        show Except.ok (fold_content (joinSep (L "\r\n")
            (headerLines ++
              (eventBlocksFrom ug dg (mkDefaults data) 0 (e0 :: rest)).map
                (joinSep (L "\r\n")) ++ [L "END:VCALENDAR"]))) = _
        rw [joinSep_doc (L "\r\n") _
          (fun b hb =>
            eventBlocksFrom_ne_nil ug dg (mkDefaults data) (e0 :: rest) 0 b hb)
          (by rw [eventBlocksFrom]; exact List.cons_ne_nil _ _)]
        rfl
      · exact ⟨_, (List.append_assoc _ _ _).symm⟩
      · show ((headerLines ++
            (eventBlocksFrom ug dg (mkDefaults data) 0 (e0 :: rest)).flatten) ++
            [L "END:VCALENDAR"]).getLast? = some (L "END:VCALENDAR")
        exact List.getLast?_concat _
      · intro l hl
        rcases List.mem_append.mp hl with h1 | h2
        · rcases List.mem_append.mp h1 with hh | hf
          · simp only [headerLines, List.mem_cons, List.mem_singleton,
              List.not_mem_nil, or_false] at hh
            rcases hh with rfl | rfl | rfl | rfl | rfl <;> decide
          · exact eventBlocksFrom_noCRLF ug dg (mkDefaults data) hu hdt
              (e0 :: rest) 0
              (fun x hx => ⟨(hv x hx).1, (hclean x hx).1, (hclean x hx).2.1,
                (hclean x hx).2.2.1, (hclean x hx).2.2.2⟩) l hf
        · simp only [List.mem_singleton] at h2
          subst h2
          decide
      · show ((headerLines ++
            (eventBlocksFrom ug dg (mkDefaults data) 0 (e0 :: rest)).flatten) ++
            [L "END:VCALENDAR"]).count (L "BEGIN:VEVENT") = (e0 :: rest).length
        rw [List.count_append, List.count_append,
          eventBlocksFrom_count_begin ug dg (mkDefaults data) (e0 :: rest) 0]
        have h1 : headerLines.count (L "BEGIN:VEVENT") = 0 := by decide
        have h2 : ([L "END:VCALENDAR"] : List (List Char)).count
            (L "BEGIN:VEVENT") = 0 := by decide
        rw [h1, h2]
        omega

/-- Witness for C5: a one-record document generates exactly the fold of its
`docLines` and those lines contain one `BEGIN:VEVENT`. -/
theorem claim_C5_structure_witness :
    generate_ics (fun _ => L "u") (fun _ => L "t")
        { events := some [{ date := some (L "2024-03-10"), summary := some (L "a") }] } =
      .ok (fold_content (joinSep (L "\r\n")
        (docLines (fun _ => L "u") (fun _ => L "t")
          (mkDefaults { events := some [{ date := some (L "2024-03-10"), summary := some (L "a") }] })
          [{ date := some (L "2024-03-10"), summary := some (L "a") }]))) ∧
    (docLines (fun _ => L "u") (fun _ => L "t")
        (mkDefaults { events := some [{ date := some (L "2024-03-10"), summary := some (L "a") }] })
        [{ date := some (L "2024-03-10"), summary := some (L "a") }]).count
      (L "BEGIN:VEVENT") = 1 := by
  have h := claim_C5_structure (fun _ => L "u") (fun _ => L "t")
    { events := some [{ date := some (L "2024-03-10"), summary := some (L "a") }] }
    [{ date := some (L "2024-03-10"), summary := some (L "a") }]
    rfl (List.cons_ne_nil _ _) (by decide) (fun _ => rfl) (fun _ => rfl)
    (by decide)
  exact ⟨h.1, h.2.2.2.2⟩
